import Mathlib

/-!
Verification development for the image-metadata extraction core of the
obsidian-image-metadata-viewer plugin (`src/parser.ts`).

Modelling conventions (a shallow embedding of the TypeScript source):

* JavaScript strings are sequences of UTF-16 code units, modelled as `Str := List Nat`
  (every unit `< 0x10000`).  Byte buffers (`Uint8Array`) are `List Nat` of bytes.
* The platform text decoders (`TextDecoder` in non-fatal mode, as used throughout the
  source) are implemented from the WHATWG Encoding standard: UTF-8 and UTF-16LE/BE are
  implemented concretely below; the Shift_JIS decoder (a large table-driven decoder)
  is a parameter `sjisDec` of the development, as are the external library functions
  `JSON.parse` (`jsonParse`) and fflate's `inflateSync` (`inflate`).
* JavaScript objects used as string-keyed maps are association lists in insertion
  order with overwrite-on-assign (`setk` / `getk`).
* Floating-point score arithmetic and the literal thresholds 0.5 / 0.3 / 0.2 / 0.1 /
  0.05 are modelled by exact rational (or integer-scaled) comparisons; for the value
  ranges reachable here (counts bounded by string length < 2^31) the IEEE-double
  evaluation in the source and the exact comparison agree.
* `String.prototype.toLowerCase` and the `/i` regex flag are modelled by ASCII case
  folding; for the ASCII search patterns of the source this is extensionally faithful
  (the non-ASCII case mappings of JS never produce the ASCII letters involved).
* JSON numbers are modelled as integers (`Json.num : Int`); none of the properties
  verified here depends on non-integral numeric formatting.
-/

/-- A JavaScript string: a list of UTF-16 code units. -/
abbrev Str := List Nat

/-- Encode one Unicode scalar value as UTF-16 code units. -/
def utf16ofChar (c : Nat) : Str :=
  if c < 0x10000 then [c]
  else [0xD800 + (c - 0x10000) / 0x400, 0xDC00 + (c - 0x10000) % 0x400]

/-- Build a `Str` from a Lean string literal (scalar values to UTF-16 units). -/
def su (s : String) : Str :=
  (s.data.map Char.toNat).flatMap utf16ofChar

/-- JS object assignment `m[k] = v`: overwrite in place, else append (insertion order). -/
def setk {κ α : Type} [DecidableEq κ] (m : List (κ × α)) (k : κ) (v : α) : List (κ × α) :=
  match m with
  | [] => [(k, v)]
  | (k', v') :: rest => if k' = k then (k, v) :: rest else (k', v') :: setk rest k v

/-- JS object read `m[k]`: `none` plays the role of `undefined`. -/
def getk {κ α : Type} [DecidableEq κ] (m : List (κ × α)) (k : κ) : Option α :=
  match m with
  | [] => none
  | (k', v) :: rest => if k' = k then some v else getk rest k

/-- The JS `\s` character class (WhiteSpace ∪ LineTerminator), also the set trimmed
by `String.prototype.trim`. -/
def isSpaceJS (c : Nat) : Bool :=
  c = 0x20 ∨ c = 0x09 ∨ c = 0x0B ∨ c = 0x0C ∨ c = 0x0A ∨ c = 0x0D ∨
  c = 0xA0 ∨ c = 0x1680 ∨ (0x2000 ≤ c ∧ c ≤ 0x200A) ∨ c = 0x2028 ∨ c = 0x2029 ∨
  c = 0x202F ∨ c = 0x205F ∨ c = 0x3000 ∨ c = 0xFEFF

/-- JS line terminators (what multiline `^` anchors after). -/
def lineTermChar (c : Nat) : Bool :=
  c = 0x0A ∨ c = 0x0D ∨ c = 0x2028 ∨ c = 0x2029

/-- The `[\t ]` class used by the A1111 regexes. -/
def wsTabChar (c : Nat) : Bool := c = 9 ∨ c = 32

/-- ASCII case folding of one code unit (model of `/i` and `toLowerCase` on the
ASCII patterns used by the source). -/
def foldAsciiLower (c : Nat) : Nat := if 65 ≤ c ∧ c ≤ 90 then c + 32 else c

/-- Model of `String.prototype.toLowerCase` (ASCII fold; see header notes). -/
def toLowerJS (s : Str) : Str := s.map foldAsciiLower

/-- `String.prototype.trim`. -/
def trimJS (s : Str) : Str :=
  ((s.dropWhile isSpaceJS).reverse.dropWhile isSpaceJS).reverse

/-- One-character step of `replace(/\s+/g, "_")`: the flag records whether the
previous character was inside a whitespace run. -/
def collapseWsF : Str → Bool → Str
  | [], _ => []
  | c :: rest, inSp =>
    if isSpaceJS c then (if inSp then [] else [95]) ++ collapseWsF rest true
    else c :: collapseWsF rest false

/-- `key.replace(/\s+/g, "_")`: collapse each run of JS whitespace to one `_`. -/
def collapseWs (s : Str) : Str := collapseWsF s false

/-- `txt.split(/\r?\n/)`: `\n` and `\r\n` separate, a lone `\r` is a regular
character. Always nonempty. -/
def splitLines : Str → List Str
  | [] => [[]]
  | [c] => if c = 10 then [[], []] else [[c]]
  | c :: d :: rest =>
    if c = 10 then [] :: splitLines (d :: rest)
    else if c = 13 ∧ d = 10 then [] :: splitLines rest
    else
      match splitLines (d :: rest) with
      | l :: ls => (c :: l) :: ls
      | [] => [[c]]

/-- `indexOf` of a needle (from the start); `none` is JS's `-1`. -/
def idxOf? (s pat : Str) : Option Nat :=
  if pat.isPrefixOf s then some 0
  else
    match s with
    | [] => none
    | _ :: rest => (idxOf? rest pat).map (· + 1)

/-- `s.indexOf(pat, start)`. -/
def idxFrom (s pat : Str) (start : Nat) : Option Nat :=
  (idxOf? (s.drop start) pat).map (· + start)

/-- `s.lastIndexOf(pat, bound)` for a single-unit `pat`: the largest `i ≤ bound`
with `s[i] = u`. -/
def lastIdxUnit (s : Str) (u : Nat) (bound : Nat) : Option Nat :=
  ((List.range (min (bound + 1) s.length)).filter (fun i => s.getD i 0 = u)).getLast?

/-- `s.slice(a, b)` for `0 ≤ a, b` (clamping semantics). -/
def sliceJS (s : Str) (a b : Nat) : Str := (s.take b).drop a

/-- Does `s` contain `pat` (`s.includes(pat)` / `indexOf ≠ -1`). -/
def containsStr (s pat : Str) : Bool := (idxOf? s pat).isSome

/-- `startsWith` on byte/unit lists. -/
def strStarts (s pat : Str) : Bool := pat.isPrefixOf s

/-- `endsWith` on unit lists. -/
def strEnds (s pat : Str) : Bool := pat.isSuffixOf s

/-- Count occurrences of a single unit (source's `countChar`/`countByte` shape). -/
def countUnit (s : Str) (u : Nat) : Nat := s.countP (fun c => c = u)

/-- Decimal digits of a natural number, with an explicit recursion bound
(`n` itself bounds the digit count, since `n / 10 < n` for `n ≥ 10`). -/
def natStrF : Nat → Nat → Str
  | 0, n => [48 + n % 10]
  | fuel + 1, n => if n < 10 then [48 + n] else natStrF fuel (n / 10) ++ [48 + n % 10]

/-- Decimal digits of a natural number. -/
def natStr (n : Nat) : Str := natStrF n n

/-- `String(n)` for an integer. -/
def intStr (n : Int) : Str :=
  if n < 0 then 45 :: natStr n.natAbs else natStr n.natAbs

/-- Replace every occurrence of a (nonempty) literal pattern; sequential left-to-right
scan as in `String.prototype.replace` with a global literal-like regex. -/
def replaceAllLit (s pat repl : Str) : Str :=
  if h : pat = [] then s
  else
    match s with
    | [] => []
    | c :: rest =>
      if pat.isPrefixOf (c :: rest) then repl ++ replaceAllLit ((c :: rest).drop pat.length) pat repl
      else c :: replaceAllLit rest pat repl
termination_by s.length
decreasing_by
  · simp only [List.length_drop, List.length_cons]
    cases pat with
    | nil => exact absurd rfl h
    | cons p ps => simp; omega
  · simp

/-- `s.replace(/\u0000+/g, "")` (and `/\u0000/g`): drop all NUL units. -/
def stripNuls (s : Str) : Str := s.filter (fun c => c ≠ 0)

/-- `s.replace(/\u0000+$/g, "")`: drop trailing NUL units. -/
def stripTrailNuls (s : Str) : Str :=
  (s.reverse.dropWhile (fun c => c = 0)).reverse

/-- `parts.join(sep)`. -/
def joinStr (sep : Str) (parts : List Str) : Str := List.intercalate sep parts

-- ---------------------------------------------------------------------------
-- WHATWG text decoders (replacement mode), as exposed by `TextDecoder`.
-- ---------------------------------------------------------------------------

/-- UTF-16 code units of a code point. -/
def cpUnits (cp : Nat) : Str :=
  if cp < 0x10000 then [cp]
  else [0xD800 + (cp - 0x10000) / 0x400, 0xDC00 + (cp - 0x10000) % 0x400]

/-- Decoder state for a pending UTF-8 multi-byte sequence:
`(codepoint-so-far, continuation bytes still needed, lower bound, upper bound)`
for the next byte, as in the WHATWG UTF-8 decoder. -/
abbrev U8St := Option (Nat × Nat × Nat × Nat)

/-- WHATWG UTF-8 decoder: handle a byte in the clean state. -/
def u8lead (b : Nat) : U8St × Str :=
  if b ≤ 0x7F then (none, [b])
  else if 0xC2 ≤ b ∧ b ≤ 0xDF then (some (b - 0xC0, 1, 0x80, 0xBF), [])
  else if 0xE0 ≤ b ∧ b ≤ 0xEF then
    (some (b - 0xE0, 2, if b = 0xE0 then 0xA0 else 0x80, if b = 0xED then 0x9F else 0xBF), [])
  else if 0xF0 ≤ b ∧ b ≤ 0xF4 then
    (some (b - 0xF0, 3, if b = 0xF0 then 0x90 else 0x80, if b = 0xF4 then 0x8F else 0xBF), [])
  else (none, [0xFFFD])

/-- WHATWG UTF-8 decoder: one step (on error the failing byte is reprocessed
as a fresh lead byte, which is the standard's "restore byte" action). -/
def u8step (st : U8St) (b : Nat) : U8St × Str :=
  match st with
  | none => u8lead b
  | some (cp, needed, lo, hi) =>
    if lo ≤ b ∧ b ≤ hi then
      if needed = 1 then (none, cpUnits (cp * 64 + (b - 0x80)))
      else (some (cp * 64 + (b - 0x80), needed - 1, 0x80, 0xBF), [])
    else
      let (st2, out2) := u8lead b
      (st2, 0xFFFD :: out2)

/-- WHATWG UTF-8 decoder, replacement mode (invalid sequences produce U+FFFD),
emitting UTF-16 code units. -/
def utf8Dec (bs : List Nat) : Str :=
  let (st, out) := bs.foldl (fun (acc : U8St × Str) b =>
    let (st2, o) := u8step acc.1 b
    (st2, acc.2 ++ o)) (none, [])
  out ++ (if st.isSome then [0xFFFD] else [])

/-- `new TextDecoder("utf-8").decode` (also fflate's `strFromU8`): UTF-8 with BOM
removal. -/
def utf8DecJS (bs : List Nat) : Str :=
  utf8Dec (if strStarts bs [0xEF, 0xBB, 0xBF] then bs.drop 3 else bs)

/-- Little-endian byte pairing into 16-bit units (dropping a lone trailing byte). -/
def pairsLE : List Nat → List Nat
  | b0 :: b1 :: rest => (b0 + 256 * b1) :: pairsLE rest
  | _ => []

/-- Big-endian byte pairing into 16-bit units. -/
def pairsBE : List Nat → List Nat
  | b0 :: b1 :: rest => (b0 * 256 + b1) :: pairsBE rest
  | _ => []

def isLeadSurr (u : Nat) : Bool := 0xD800 ≤ u ∧ u ≤ 0xDBFF
def isTrailSurr (u : Nat) : Bool := 0xDC00 ≤ u ∧ u ≤ 0xDFFF

/-- WHATWG shared UTF-16 decoder surrogate handling, one unit at a time; the
state is a pending lead surrogate (on error the current unit is reprocessed). -/
def surrStep (pending : Option Nat) (u : Nat) : Option Nat × Str :=
  match pending with
  | some l =>
    if isTrailSurr u then (none, [l, u])
    else if isLeadSurr u then (some u, [0xFFFD])
    else (none, [0xFFFD, u])
  | none =>
    if isLeadSurr u then (some u, [])
    else if isTrailSurr u then (none, [0xFFFD])
    else (none, [u])

/-- WHATWG surrogate fixing over a unit stream; `tailErr` marks a trailing lone
byte (end-of-stream with a pending lead byte or lead surrogate yields exactly
one replacement). -/
def fixSurr (us : List Nat) (tailErr : Bool) : Str :=
  let (p, out) := us.foldl (fun (acc : Option Nat × Str) u =>
    let (p2, o) := surrStep acc.1 u
    (p2, acc.2 ++ o)) (none, [])
  out ++ (if p.isSome ∨ tailErr then [0xFFFD] else [])

/-- WHATWG UTF-16LE decode (no BOM handling). -/
def utf16leDec (bs : List Nat) : Str := fixSurr (pairsLE bs) (bs.length % 2 = 1)

/-- WHATWG UTF-16BE decode (no BOM handling). -/
def utf16beDec (bs : List Nat) : Str := fixSurr (pairsBE bs) (bs.length % 2 = 1)

/-- `new TextDecoder("utf-16le").decode` (BOM FF FE removed). -/
def utf16leDecJS (bs : List Nat) : Str :=
  utf16leDec (if strStarts bs [0xFF, 0xFE] then bs.drop 2 else bs)

/-- `new TextDecoder("utf-16be").decode` (BOM FE FF removed). -/
def utf16beDecJS (bs : List Nat) : Str :=
  utf16beDec (if strStarts bs [0xFE, 0xFF] then bs.drop 2 else bs)

/-- UTF-8 bytes of one code point. -/
def utf8Bytes (cp : Nat) : List Nat :=
  if cp ≤ 0x7F then [cp]
  else if cp ≤ 0x7FF then [0xC0 + cp / 64, 0x80 + cp % 64]
  else if cp ≤ 0xFFFF then [0xE0 + cp / 4096, 0x80 + cp / 64 % 64, 0x80 + cp % 64]
  else [0xF0 + cp / 262144, 0x80 + cp / 4096 % 64, 0x80 + cp / 64 % 64, 0x80 + cp % 64]

/-- One step of UTF-8 encoding of a UTF-16 unit stream (pending lead surrogate
as state; lone surrogates encode as U+FFFD). -/
def encStep (pending : Option Nat) (u : Nat) : Option Nat × List Nat :=
  match pending with
  | some l =>
    if isTrailSurr u then (none, utf8Bytes (0x10000 + (l - 0xD800) * 1024 + (u - 0xDC00)))
    else if isLeadSurr u then (some u, utf8Bytes 0xFFFD)
    else (none, utf8Bytes 0xFFFD ++ utf8Bytes u)
  | none =>
    if isLeadSurr u then (some u, [])
    else if isTrailSurr u then (none, utf8Bytes 0xFFFD)
    else (none, utf8Bytes u)

/-- `new TextEncoder().encode` (the source's `strToU8`): UTF-8 encode, lone
surrogates becoming U+FFFD. -/
def utf8Enc (s : Str) : List Nat :=
  let (p, out) := s.foldl (fun (acc : Option Nat × List Nat) u =>
    let (p2, o) := encStep acc.1 u
    (p2, acc.2 ++ o)) (none, [])
  out ++ (if p.isSome then utf8Bytes 0xFFFD else [])

-- ---------------------------------------------------------------------------
-- Data model (`ImageMeta`, JSON values, field values).
-- ---------------------------------------------------------------------------

/-- `ImageMeta.format`. -/
inductive Format where
  | png | jpeg | webp | unknown
deriving DecidableEq

/-- A JSON value as produced by `JSON.parse` (numbers modelled as integers). -/
inductive Json where
  | null
  | bool (b : Bool)
  | num (n : Int)
  | str (s : Str)
  | arr (elems : List Json)
  | obj (props : List (Str × Json))

/-- A value of the `fields` map: a string or a parsed JSON value. -/
inductive FieldVal where
  | s (v : Str)
  | j (v : Json)

/-- Project a string-valued field. -/
def fvStr? : FieldVal → Option Str
  | .s v => some v
  | .j _ => none

/-- The result record of `parseImageMeta`. -/
structure ImageMeta where
  format : Format
  fields : List (Str × FieldVal)
  raw : List (Str × Str)

/-- Property read `o[k]` on a JSON value (`undefined` on non-objects and on
missing keys; array index properties are never the string keys used here). -/
def jsGet : Json → Str → Option Json
  | .obj props, k => getk props k
  | _, _ => none

/-- JS truthiness of a JSON value. -/
def jsTruthyV : Json → Bool
  | .null => false
  | .bool b => b
  | .num n => n ≠ 0
  | .str s => s ≠ []
  | .arr _ => true
  | .obj _ => true

/-- JS truthiness of a possibly-`undefined` JSON value. -/
def jsTruthy : Option Json → Bool
  | none => false
  | some v => jsTruthyV v

/-- `a || b` on possibly-undefined JSON values. -/
def jsOr (a b : Option Json) : Option Json := if jsTruthy a then a else b

/-- `a ?? b` on possibly-undefined JSON values. -/
def jsCoal (a b : Option Json) : Option Json :=
  match a with
  | none => b
  | some .null => b
  | some v => some v

mutual

/-- `String(v)` for a JSON value. -/
def jsToString : Json → Str
  | .null => su "null"
  | .bool b => if b then su "true" else su "false"
  | .num n => intStr n
  | .str s => s
  | .arr xs => joinStr [44] (jsArrParts xs)
  | .obj _ => su "[object Object]"

/-- `Array.prototype.join`'s element strings (null elements print empty). -/
def jsArrParts : List Json → List Str
  | [] => []
  | x :: xs =>
    (match x with
     | .null => []
     | v => jsToString v) :: jsArrParts xs

end

-- ---------------------------------------------------------------------------
-- Marker regexes (source lines 138-147) as explicit scanners.
-- The /i flag is modelled by ASCII case folding (see header notes).
-- ---------------------------------------------------------------------------

/-- Case-insensitive `startsWith` (ASCII fold). -/
def ciStarts (s pat : Str) : Bool := strStarts (toLowerJS s) (toLowerJS pat)

/-- `[\r\n]` of the anchored marker regexes (note: not U+2028/U+2029). -/
def crlfOnly (c : Nat) : Bool := c = 10 ∨ c = 13

/-- Does `[\t ]*<label>` match (case-insensitively) at the start of `t`? -/
def anchHit (label : Str) (t : Str) : Bool := ciStarts (t.dropWhile wsTabChar) label

/-- Scan for `[\r\n][\t ]*<label>` (match index = index of the terminator). -/
def anchScan (label : Str) : Str → Nat → Option Nat
  | [], _ => none
  | c :: rest, i => if crlfOnly c ∧ anchHit label rest then some i else anchScan label rest (i + 1)

/-- `str.search(/(^|[\r\n])[\t ]*<label>/i)`; `.test` is `.isSome`. No `m` flag,
so `^` anchors only at index 0. -/
def anchoredSearch (label : Str) (s : Str) : Option Nat :=
  if anchHit label s then some 0 else anchScan label s 0

/-- `NEGATIVE_PROMPT_RE` label (lower-case form for the ci comparison). -/
def negLabelLower : Str := su "negative prompt:"

/-- The exact `Negative prompt:` marker for the case-sensitive `indexOf` uses. -/
def negLabelCS : Str := su "Negative prompt:"

-- ---------------------------------------------------------------------------
-- Settings-line regexes (SETTINGS_STEPS_RE / SETTINGS_ANY_RE, multiline + i).
-- ---------------------------------------------------------------------------

/-- Length of the maximal `[^\n]*` run. -/
def nonNlLen (t : Str) : Nat := (t.takeWhile (fun c => c ≠ 10)).length

/-- If `[\t ]*(<label1>|...)[^\n]*` matches at the start of `t`, its length.
JS alternation order = `find?` order; no label is a prefix of another. -/
def matchLenHere (labels : List Str) (t : Str) : Option Nat :=
  let w := (t.takeWhile wsTabChar).length
  let t2 := t.drop w
  match labels.find? (fun lab => ciStarts t2 lab) with
  | some lab => some (w + lab.length + nonNlLen (t2.drop lab.length))
  | none => none

/-- Leftmost multiline-anchored match: scan positions in order, trying the body
at every line start (`ls` tracks whether the current position follows a JS line
terminator). Returns (relative index, match length). -/
def scanLS (labels : List Str) : Str → Bool → Option (Nat × Nat)
  | [], _ => none
  | c :: rest, ls =>
    match (if ls then matchLenHere labels (c :: rest) else none) with
    | some l => some (0, l)
    | none => (scanLS labels rest (lineTermChar c)).map (fun p => (p.1 + 1, p.2))

/-- `SETTINGS_STEPS_RE` alternatives (lower-case). -/
def stepsLabels : List Str := [su "steps:"]

/-- `SETTINGS_ANY_RE` alternatives (lower-case, in source order). -/
def anyLabels : List Str :=
  [su "sampler:", su "cfg scale:", su "seed:", su "size:", su "model:",
   su "schedule type:", su "denoising strength:", su "hires steps:"]

/-- Source `pickSettingsLineWithIndex` (lines 915-923): try `SETTINGS_STEPS_RE`,
then `SETTINGS_ANY_RE`; returns `(m.index, m.index + m[0].length)`.  (The
`line` component `m[0].trim()` is unused by every verified caller.) -/
def pickSettingsLineWithIndex (s : Str) : Option (Nat × Nat) :=
  match scanLS stepsLabels s true with
  | some (p, l) => some (p, p + l)
  | none =>
    match scanLS anyLabels s true with
    | some (p, l) => some (p, p + l)
    | none => none

-- ---------------------------------------------------------------------------
-- looksGarbled (source lines 832-846).
-- ---------------------------------------------------------------------------

/-- Source `looksGarbled`: U+FFFD or NUL present, or mostly-high code units with
few ASCII letters.  The float thresholds `high/max(1,len) > 0.5` and
`alpha < len*0.1` coincide with the exact comparisons used here for all
reachable counts. -/
def looksGarbled (s : Str) : Bool :=
  if s = [] then false
  else if containsStr s [0xFFFD] then true
  else if containsStr s [0] then true
  else
    let len := s.length
    let high := s.countP (fun c => decide (0x7E < c))
    let alpha := s.countP (fun c => decide ((65 ≤ c ∧ c ≤ 90) ∨ (97 ≤ c ∧ c ≤ 122)))
    2 * high > max 1 len ∧ 10 * alpha < len

-- ---------------------------------------------------------------------------
-- looksGarbled applied to an arbitrary JS value (the recovery pipeline can
-- store a non-string JSON value in raw["parameters"], source line 1005).
-- ---------------------------------------------------------------------------

/-- Strict (`===`) equality of an array element with a string, as used by
`Array.prototype.indexOf`. -/
def jsStrictEqStr (pat : Str) : Json → Bool
  | .str t => t = pat
  | _ => false

/-- `looksGarbled` on an arbitrary JS value (source lines 832-846 executed
with a non-string argument): a falsy value returns `false` via the `!s`
guard; a string behaves as `looksGarbled`; an array has `indexOf` (strict
element comparison) and returns `true` on a `"�"`/`"\u0000"` element,
`false` when empty, and otherwise throws a TypeError at `charCodeAt`; every
other truthy value throws at `indexOf`.  `none` models the thrown
TypeError. -/
def looksGarbledV : Json → Option Bool
  | .str s => some (looksGarbled s)
  | .null => some false
  | .bool b => if b then none else some false
  | .num n => if n = 0 then some false else none
  | .obj _ => none
  | .arr xs =>
    if xs.any (jsStrictEqStr [0xFFFD]) then some true
    else if xs.any (jsStrictEqStr [0]) then some true
    else if xs.isEmpty then some false
    else none

-- ---------------------------------------------------------------------------
-- maybeFixUtf16EndianMisdecode (source lines 668-685).
-- ---------------------------------------------------------------------------

/-- Count of code units whose low byte is zero (`(charCodeAt & 0xff) === 0`). -/
def zeroLowCount (s : Str) : Nat := s.countP (fun u => u % 256 = 0)

/-- The `ratio > 0.3` trigger of the endianness repair (exact comparison; the
IEEE evaluation of `zeroLow / max(1, len) > 0.3` agrees on reachable counts). -/
def fixTrigger (s : Str) : Bool := 10 * zeroLowCount s > 3 * max 1 s.length

/-- Source `maybeFixUtf16EndianMisdecode` on a non-null string: when triggered,
re-emit each code unit as a big-endian byte pair and decode as UTF-16LE. -/
def maybeFixUtf16EndianMisdecode (s : Str) : Str :=
  if fixTrigger s then
    utf16leDecJS (s.flatMap (fun u => [u / 256 % 256, u % 256]))
  else s

-- ---------------------------------------------------------------------------
-- Byte helpers (source lines 50-52, 491-511).
-- ---------------------------------------------------------------------------

/-- PNG big-endian u32 read (`readU32`). -/
def readU32 (u8 : List Nat) (o : Nat) : Nat :=
  u8.getD o 0 * 16777216 + u8.getD (o + 1) 0 * 65536 + u8.getD (o + 2) 0 * 256 + u8.getD (o + 3) 0

/-- `readU32BE` (same arithmetic). -/
def readU32BE (a : List Nat) (o : Nat) : Nat := readU32 a o

/-- `latin1FromU8`: each byte maps 1:1 to a code unit. -/
def latin1FromU8 (u : List Nat) : Str := u

/-- `safeAscii`: non-printable bytes become `?`. -/
def safeAscii (u : List Nat) : Str :=
  u.map (fun c => if c < 32 ∨ c > 126 then 63 else c)

/-- `strToU8` (TextEncoder). -/
def strToU8 (s : Str) : List Nat := utf8Enc s

-- ---------------------------------------------------------------------------
-- PNG text chunks (source lines 53-102).
-- ---------------------------------------------------------------------------

/-- Source `parse_tEXt`. -/
def parse_tEXt (data : List Nat) : Str × Str :=
  match idxOf? data [0] with
  | none => ([], [])
  | some z => (latin1FromU8 (data.take z), latin1FromU8 (data.drop (z + 1)))

/-- Source `parse_zTXt`.  `data[zero+1]` beyond the buffer is `undefined` in JS,
which fails the `!== 0` test exactly like the out-of-range sentinel 256. -/
def parse_zTXt (inflate : List Nat → Option (List Nat)) (data : List Nat) : Str × Str :=
  match idxOf? data [0] with
  | none => ([], [])
  | some z =>
    let key := latin1FromU8 (data.take z)
    let method := data.getD (z + 1) 256
    if method ≠ 0 then (key, [])
    else
      match inflate (data.drop (z + 2)) with
      | some infl => (key, latin1FromU8 infl)
      | none => (key, [])

/-- Source `parse_iTXt`, including the `readz` quirk: when no NUL is found,
`indexOf` yields `-1`, the slice end becomes `len - 1` (JS negative `subarray`
index) and the cursor resets to `0`. -/
def parse_iTXt (inflate : List Nat → Option (List Nat)) (data : List Nat) : Str × Str :=
  let readz := fun (p : Nat) =>
    match idxFrom data [0] p with
    | some z => (sliceJS data p z, z + 1)
    | none => (sliceJS data p (data.length - 1), 0)
  let r0 := readz 0
  let key := utf8DecJS r0.1
  let p1 := r0.2
  let compFlag := data.getD p1 0
  let p2 := p1 + 2
  let r1 := readz p2
  let r2 := readz r1.2
  let rest := data.drop r2.2
  if compFlag ≠ 0 then
    match inflate rest with
    | some infl => (key, utf8DecJS infl)
    | none => (key, [])
  else (key, utf8DecJS rest)

-- ---------------------------------------------------------------------------
-- The per-line `^([^:]+):\s*(.*)$` regex of the normalizer (source line 114).
-- ---------------------------------------------------------------------------

/-- Split a line at its first colon with a nonempty key part (`^([^:]+):`). -/
def splitFirstColon (ln : Str) : Option (Str × Str) :=
  match idxOf? ln [58] with
  | none => none
  | some i => if i = 0 then none else some (ln.take i, ln.drop (i + 1))

/-- Index just after the last JS line terminator of `s` (0 when none). -/
def lastTermEnd (s : Str) : Nat :=
  s.length - (s.reverse.takeWhile (fun c => ¬ lineTermChar c)).length

/-- The whole-line regex `^([^:]+):\s*(.*)$` (no `m` flag; `$` only at the very
end, `.` excluding line terminators): it matches iff every character between the
first colon and the last line terminator is JS whitespace, and then captures
the maximal `\s*` run greedily, leaving the rest as `m[2]`. -/
def lineKV (ln : Str) : Option (Str × Str) :=
  match splitFirstColon ln with
  | none => none
  | some (k, rest) =>
    if (rest.take (lastTermEnd rest)).all isSpaceJS then
      some (k, rest.drop (rest.takeWhile isSpaceJS).length)
    else none

/-- `t.startsWith("{") && t.endsWith("}") || t.startsWith("[") && t.endsWith("]")`. -/
def jsonLike (t : Str) : Bool :=
  (strStarts t [123] ∧ strEnds t [125]) ∨ (strStarts t [91] ∧ strEnds t [93])

-- ---------------------------------------------------------------------------
-- ComfyUI graph extractor (source lines 149-234).
-- ---------------------------------------------------------------------------

/-- Does a node object expose a string `class_type`? -/
def nodeHasClassType (n : Json) : Bool :=
  match n with
  | .obj np =>
    match getk np (su "class_type") with
    | some (.str _) => true
    | _ => false
  | _ => false

/-- A decimal digit string read as a number. -/
def natOfDigits (k : Str) : Nat := k.foldl (fun a c => a * 10 + (c - 48)) 0

/-- Is `k` a canonical array-index property key (digits only, no leading
zero except `"0"`, value below `2^32 - 1`)?  JS enumerates these first. -/
def jsKeyIsIndex (k : Str) : Bool :=
  k ≠ [] ∧ k.all (fun c => 48 ≤ c ∧ c ≤ 57) ∧ (k = [48] ∨ k.headD 0 ≠ 48) ∧
  natOfDigits k < 4294967295

/-- `Object.entries` in JS enumeration order: canonical integer-like keys
first in ascending numeric order (e.g. ComfyUI node ids), then the remaining
keys in insertion order; array indices become decimal string keys. -/
def jsEntries : Json → List (Str × Json)
  | .obj props =>
    (props.filter (fun p => jsKeyIsIndex p.1)).mergeSort
      (fun a b => decide (natOfDigits a.1 ≤ natOfDigits b.1)) ++
    props.filter (fun p => ¬ jsKeyIsIndex p.1)
  | .arr elems => elems.enum.map (fun p => (natStr p.1, p.2))
  | _ => []

/-- `Object.values` of a JSON object/array (same enumeration order). -/
def jsValues (j : Json) : List Json := (jsEntries j).map Prod.snd

/-- `pushIfGraph`'s test: object-typed with some value carrying a string
`class_type`. -/
def isGraphVal (g : Json) : Bool :=
  match g with
  | .obj _ => (jsValues g).any nodeHasClassType
  | .arr _ => (jsValues g).any nodeHasClassType
  | _ => false

/-- `pushIfGraph` (truthiness + object check + graph heuristic, then push). -/
def pushIfGraph (acc : List Json) (g : Option Json) : List Json :=
  match g with
  | some v =>
    match v with
    | .obj _ => if isGraphVal v then acc ++ [v] else acc
    | .arr _ => if isGraphVal v then acc ++ [v] else acc
    | _ => acc
  | none => acc

/-- The candidate value of a fields entry as a JSON value (strings and absent
entries are not objects, so `pushIfGraph` ignores them). -/
def fvJson? : Option FieldVal → Option Json
  | some (.j v) => some v
  | _ => none

/-- JS truthiness of a fields-map entry. -/
def fvTruthy : Option FieldVal → Bool
  | some (.s t) => t ≠ []
  | some (.j v) => jsTruthyV v
  | none => false

/-- `typeof v === "object"` for a non-null JSON value. -/
def isObjTypeJS : Json → Bool
  | .obj _ => true
  | .arr _ => true
  | _ => false

/-- `workflow.nodes` list projected back to an id→node map (source 166-172). -/
def workflowNodesMap (ns : List Json) : Json :=
  .obj (ns.foldl (fun m n =>
    if jsTruthyV n then
      match jsGet n (su "id") with
      | some idv => setk m (jsToString idv) n
      | none => m
    else m) [])

/-- First candidate of `extractComfy` (source lines 155-156): the `prompt_json`
value when truthy. -/
def comfyInit1 (parsed : List (Str × FieldVal)) : List Json :=
  if fvTruthy (getk parsed (su "prompt_json"))
  then pushIfGraph [] (fvJson? (getk parsed (su "prompt_json")))
  else []

/-- Second candidate (source lines 158-174): the `workflow_json` node map. -/
def comfyInit2 (parsed : List (Str × FieldVal)) : List Json :=
  match fvJson? (getk parsed (su "workflow_json")) with
  | some wf =>
    if jsTruthyV wf && isObjTypeJS wf then
      match jsGet wf (su "nodes") with
      | some (.arr ns) => pushIfGraph (comfyInit1 parsed) (some (workflowNodesMap ns))
      | _ => comfyInit1 parsed
    else comfyInit1 parsed
  | none => comfyInit1 parsed

/-- One step of the `*_json` entry sweep (source lines 176-183). -/
def comfyEntryStep (acc : List Json) (kv : Str × FieldVal) : List Json :=
  if strEnds kv.1 (su "_json") then
    match kv.2 with
    | .j obj =>
      if jsTruthyV obj && isObjTypeJS obj then
        let a1 := if jsTruthy (jsGet obj (su "prompt")) then pushIfGraph acc (jsGet obj (su "prompt")) else acc
        if jsTruthy (jsGet obj (su "workflow")) then pushIfGraph a1 (jsGet obj (su "workflow")) else a1
      else acc
    | .s _ => acc
  else acc

/-- Candidate graph collection of `extractComfy` (source lines 152-183). -/
def comfyCandidates (parsed : List (Str × FieldVal)) : List Json :=
  parsed.foldl comfyEntryStep (comfyInit2 parsed)

/-- `samplerNode.inputs || {}` / `node.inputs || {}`. -/
def inputsOf (n : Json) : Json :=
  match jsGet n (su "inputs") with
  | some v => if jsTruthyV v then v else .obj []
  | none => .obj []

/-- `resolveText` (source lines 214-226). -/
def resolveText (nodes : List (Str × Json)) (conn : Option Json) : Option Str :=
  match conn with
  | none => none
  | some c =>
    if ¬ jsTruthyV c then none
    else
      let key :=
        match c with
        | .arr es =>
          match es.head? with
          | some v => jsToString v
          | none => su "undefined"
        | _ => jsToString c
      match getk nodes key with
      | none => none
      | some node =>
        if ¬ jsTruthyV node then none
        else
          let inp := inputsOf node
          match jsGet inp (su "text") with
          | some (.str t) => some t
          | _ =>
            let parts :=
              (match jsGet inp (su "text_g") with | some (.str g) => [g] | _ => []) ++
              (match jsGet inp (su "text_l") with | some (.str l) => [l] | _ => [])
            if parts ≠ [] then some (joinStr [32] parts) else none

/-- Truthiness of an optional string (JS `if (x)` on a string-or-undefined). -/
def truthyStr (v : Option Str) : Bool :=
  match v with
  | some t => t ≠ []
  | none => false

/-- Source `extractFromComfyPromptGraph` (lines 192-234). -/
def extractFromComfyPromptGraph (graph : Json) : Option (List (Str × FieldVal)) :=
  let nodes := jsEntries graph
  if nodes.isEmpty then none
  else
    match (nodes.map (·.2)).find? (fun n =>
      match jsGet n (su "class_type") with
      | some (.str ct) => strStarts ct (su "KSampler")
      | _ => false) with
    | none => none
    | some samplerNode =>
      let inputs := inputsOf samplerNode
      let out0 : List (Str × FieldVal) := [(su "generator", .s (su "ComfyUI"))]
      let out1 := [(su "seed", su "seed"), (su "steps", su "steps"), (su "cfg", su "cfg_scale"),
                   (su "sampler_name", su "sampler"), (su "scheduler", su "scheduler"),
                   (su "denoise", su "denoise")].foldl
        (fun o p =>
          match jsGet inputs p.1 with
          | some v => setk o p.2 (.j v)
          | none => o) out0
      let pos := resolveText nodes (jsGet inputs (su "positive"))
      let neg := resolveText nodes (jsGet inputs (su "negative"))
      let out2 := if truthyStr pos then setk out1 (su "prompt") (.s (pos.getD [])) else out1
      let out3 := if truthyStr neg then setk out2 (su "negative_prompt") (.s (neg.getD [])) else out2
      some out3

/-- Source `extractComfy` (lines 150-190): first candidate graph that yields a
sampler wins. -/
def extractComfy (parsed : List (Str × FieldVal)) : Option (List (Str × FieldVal)) :=
  (comfyCandidates parsed).findSome? extractFromComfyPromptGraph

-- ---------------------------------------------------------------------------
-- normalizeKnownFields (source lines 104-136).
-- ---------------------------------------------------------------------------

/-- One step of the per-line loop (source lines 113-116): a matching
`key: value` line stores the trimmed pair. -/
def nkLineStep (o : List (Str × FieldVal)) (ln : Str) : List (Str × FieldVal) :=
  match lineKV ln with
  | some kv => setk o (trimJS kv.1) (.s (trimJS kv.2))
  | none => o

/-- One step of the recognized-prompt-keys loop (source lines 118-120): a
truthy `raw[k]` is stored under `k.replace(/\s+/g, "_")`. -/
def nkRecogStep (raw : List (Str × Str)) (o : List (Str × FieldVal)) (k : Str) :
    List (Str × FieldVal) :=
  match getk raw k with
  | some v => if v ≠ [] then setk o (collapseWs k) (.s v) else o
  | none => o

/-- One step of the JSON-looking-value sweep (source lines 123-128). -/
def nkJsonStep (jsonParse : Str → Option Json) (o : List (Str × FieldVal))
    (kv : Str × Str) : List (Str × FieldVal) :=
  let t := trimJS kv.2
  if jsonLike t then
    match jsonParse t with
    | some j => setk o (kv.1 ++ su "_json") (.j j)
    | none => o
  else o

/-- The A1111 branch of the normalizer (source lines 109-121), run when
`raw["parameters"]` is truthy. -/
def nkA1111 (raw : List (Str × Str)) (txt : Str) : List (Str × FieldVal) :=
  let o1 := setk [] (su "parameters_raw") (.s txt)
  let lines := splitLines txt
  let o2 := setk o1 (su "prompt") (.s (lines.headD []))
  let o3 := (lines.drop 1).foldl nkLineStep o2
  [su "prompt", su "negative_prompt", su "Prompt", su "Negative prompt"].foldl
    (nkRecogStep raw) o3

/-- The normalizer output after the A1111 stage (the `if (raw["parameters"])`
truthiness test of source line 109). -/
def nkOut1 (raw : List (Str × Str)) : List (Str × FieldVal) :=
  match getk raw (su "parameters") with
  | some txt => if txt ≠ [] then nkA1111 raw txt else []
  | none => []

/-- Source `normalizeKnownFields`: A1111 `parameters` block, recognized prompt
keys, JSON-looking values (via the `jsonParse` parameter = `JSON.parse`), then
the ComfyUI extractor merged over the result. -/
def normalizeKnownFields (jsonParse : Str → Option Json)
    (raw : List (Str × Str)) : List (Str × FieldVal) :=
  let out2 := raw.foldl (nkJsonStep jsonParse) (nkOut1 raw)
  match extractComfy out2 with
  | some comfy => comfy.foldl (fun o kv => setk o kv.1 kv.2) out2
  | none => out2

-- ---------------------------------------------------------------------------
-- PNG reader (source lines 25-49).
-- ---------------------------------------------------------------------------

/-- The 8-byte PNG signature test (a shorter buffer fails, as `u8[i]` is then
`undefined`). -/
def pngSigOk (u8 : List Nat) : Bool :=
  u8.take 8 = [137, 80, 78, 71, 13, 10, 26, 10]

/-- The PNG chunk walk (source lines 30-46): `len:u32be, type:4ascii, data[len],
crc:u32`, collecting `tEXt`/`iTXt`/`zTXt` into `raw`, stopping at `IEND` or
when fewer than 8 header bytes remain. -/
def pngChunksF (inflate : List Nat → Option (List Nat)) (u8 : List Nat) :
    Nat → Nat → List (Str × Str) → List (Str × Str)
  | 0, _, raw => raw
  | fuel + 1, off, raw =>
    if off + 8 ≤ u8.length then
      let len := readU32 u8 off
      let type := utf8DecJS (sliceJS u8 (off + 4) (off + 8))
      let data := sliceJS u8 (off + 8) (off + 8 + len)
      let raw2 :=
        if type = su "tEXt" then
          let r := parse_tEXt data
          if r.1 ≠ [] then setk raw r.1 r.2 else raw
        else if type = su "iTXt" then
          let r := parse_iTXt inflate data
          if r.1 ≠ [] then setk raw r.1 r.2 else raw
        else if type = su "zTXt" then
          let r := parse_zTXt inflate data
          if r.1 ≠ [] then setk raw r.1 r.2 else raw
        else raw
      if type = su "IEND" then raw2
      else pngChunksF inflate u8 fuel (off + 8 + len + 4) raw2
    else raw

/-- The PNG chunk walk with the recursion bound `u8.length + 1`: every
iteration advances `off` by at least 12 and the loop guard needs
`off + 8 ≤ length`, so the `while` loop of the source runs strictly fewer
than `length + 1` times. -/
def pngChunks (inflate : List Nat → Option (List Nat)) (u8 : List Nat)
    (off : Nat) (raw : List (Str × Str)) : List (Str × Str) :=
  pngChunksF inflate u8 (u8.length + 1) off raw

/-- Source `parsePng` (lines 25-49). -/
def parsePng (inflate : List Nat → Option (List Nat)) (jsonParse : Str → Option Json)
    (u8 : List Nat) : ImageMeta :=
  if ¬ pngSigOk u8 then { format := .png, fields := [], raw := [] }
  else
    let raw := pngChunks inflate u8 8 []
    { format := .png, fields := normalizeKnownFields jsonParse raw, raw := raw }

-- ---------------------------------------------------------------------------
-- Exact score arithmetic.  The float scores of the source are modelled by
-- unnormalized rationals (numerator/positive denominator) compared by
-- cross-multiplication; this is exact rational arithmetic, and every
-- denominator built below is positive.
-- ---------------------------------------------------------------------------

/-- An unnormalized rational number. -/
structure Frac where
  num : Int
  den : Nat
deriving DecidableEq

/-- Embed an integer. -/
def fInt (n : Int) : Frac := ⟨n, 1⟩

/-- Addition. -/
def fadd (a b : Frac) : Frac := ⟨a.num * b.den + b.num * a.den, a.den * b.den⟩

/-- Subtraction. -/
def fsub (a b : Frac) : Frac := ⟨a.num * b.den - b.num * a.den, a.den * b.den⟩

/-- Multiplication. -/
def fmul (a b : Frac) : Frac := ⟨a.num * b.num, a.den * b.den⟩

/-- Division by a (positive) natural number. -/
def fdivNat (a : Frac) (n : Nat) : Frac := ⟨a.num, a.den * n⟩

/-- Strict order by cross-multiplication (correct when denominators are positive). -/
def flt (a b : Frac) : Prop := a.num * b.den < b.num * a.den

/-- Order by cross-multiplication. -/
def fle (a b : Frac) : Prop := a.num * b.den ≤ b.num * a.den

instance (a b : Frac) : Decidable (flt a b) := by unfold flt; infer_instance

instance (a b : Frac) : Decidable (fle a b) := by unfold fle; infer_instance

-- ---------------------------------------------------------------------------
-- Text decoding engine (source lines 593-685).
-- ---------------------------------------------------------------------------

/-- The encoding names handled by the source's `decodeBytes`. -/
inductive TextEnc where
  | utf8 | utf16le | utf16be | utf16 | latin1 | shiftJis
deriving DecidableEq

/-- Source `decodeBytes` (lines 594-609).  The non-fatal `TextDecoder`s never
throw, so every branch succeeds; `"utf-16"` resolves to the UTF-16LE decoder
(the LE attempt never reaches the BE fallback).  `sjisDec` is the platform
Shift_JIS decoder. -/
def decodeBytes (sjisDec : List Nat → Str) (b : List Nat) : TextEnc → Option Str
  | .latin1 => some (latin1FromU8 b)
  | .shiftJis => some (sjisDec b)
  | .utf16 => some (utf16leDecJS b)
  | .utf16le => some (utf16leDecJS b)
  | .utf16be => some (utf16beDecJS b)
  | .utf8 => some (utf8DecJS b)

/-- Source `decodeShiftJIS` (lines 505-507). -/
def decodeShiftJIS (sjisDec : List Nat → Str) (u : List Nat) : Option Str :=
  some (sjisDec u)

/-- Source `scoreDecodedString` (lines 631-652); exact rational arithmetic. -/
def scoreDecodedString (s : Str) : Frac :=
  if s = [] then fInt (-1)
  else
    let repl := s.countP (fun c => decide (c = 0xFFFD))
    let cjk := s.countP (fun c => decide ((0x4E00 ≤ c ∧ c ≤ 0x9FFF) ∨ (0x3400 ≤ c ∧ c ≤ 0x4DBF)))
    let kana := s.countP (fun c => decide (¬ ((0x4E00 ≤ c ∧ c ≤ 0x9FFF) ∨ (0x3400 ≤ c ∧ c ≤ 0x4DBF)) ∧
      ((0x3040 ≤ c ∧ c ≤ 0x30FF) ∨ (0x31F0 ≤ c ∧ c ≤ 0x31FF))))
    let ascii := s.countP (fun c => decide (¬ ((0x4E00 ≤ c ∧ c ≤ 0x9FFF) ∨ (0x3400 ≤ c ∧ c ≤ 0x4DBF)) ∧
      ¬ ((0x3040 ≤ c ∧ c ≤ 0x30FF) ∨ (0x31F0 ≤ c ∧ c ≤ 0x31FF)) ∧ 32 ≤ c ∧ c ≤ 126))
    let controls := s.countP (fun c => decide (c < 32 ∧ c ≠ 9 ∧ c ≠ 10 ∧ c ≠ 13))
    let sep := countUnit s 44 + countUnit s 58 + countUnit s 59
    fadd (fadd (fInt ((cjk : Int) * 5 + (kana : Int) * 4 - (repl : Int) * 100 - (controls : Int) * 5))
      (fmul (fInt ascii) ⟨3, 10⟩)) (fmul (fInt sep) ⟨1, 2⟩)

/-- Source `scoreSdTextCandidate` (lines 574-592); the `HAS_*_RE` tests are the
anchored scanners above. -/
def scoreSdTextCandidate (s : Str) : Frac :=
  let base : Int :=
    (if (anchoredSearch negLabelLower s).isSome then 5 else 0) +
    (if (anchoredSearch (su "steps:") s).isSome then 4 else 0) +
    (if (anchoredSearch (su "sampler:") s).isSome then 2 else 0) +
    (if (anchoredSearch (su "cfg scale:") s).isSome then 2 else 0) +
    (if (anchoredSearch (su "seed:") s).isSome then 2 else 0) +
    (if (anchoredSearch (su "size:") s).isSome then 2 else 0)
  let ascii := s.countP (fun c => decide (32 ≤ c ∧ c ≤ 126))
  let controls := s.countP (fun c => decide (c < 32 ∧ c ≠ 9 ∧ c ≠ 10 ∧ c ≠ 13))
  fadd (fInt (base - (controls : Int) * 5 +
      (if containsStr s [0x2019] then 1 else 0) - (if containsStr s [0x0019] then 3 else 0)))
    (fdivNat (fInt ascii) (max 1 s.length))

/-- Shift_JIS lead byte. -/
def sjisLead (x : Nat) : Bool := (0x81 ≤ x ∧ x ≤ 0x9F) ∨ (0xE0 ≤ x ∧ x ≤ 0xFC)

/-- Shift_JIS trail byte. -/
def sjisTrail (y : Nat) : Bool := (0x40 ≤ y ∧ y ≤ 0x7E) ∨ (0x80 ≤ y ∧ y ≤ 0xFC)

/-- The pair-counting loop of `looksLikeShiftJis` (lines 653-665). -/
def sjisPairCount : List Nat → Nat
  | [] => 0
  | [_] => 0
  | x :: y :: rest =>
    if sjisLead x then
      if sjisTrail y then 1 + sjisPairCount rest else sjisPairCount (y :: rest)
    else sjisPairCount (y :: rest)

/-- `looksLikeShiftJis`: pair ratio `> 0.05` (exact comparison). -/
def looksLikeShiftJis (b : List Nat) : Bool :=
  20 * sjisPairCount b > max 1 (b.length / 2)

/-- Source `decodeBest` (lines 612-630): build the encoding list (preferred,
Shift_JIS bias, then the standard panel without duplicates), decode and score
each, stable-sort by descending score, return the first text. -/
def decodeBest (sjisDec : List Nat → Str) (data : List Nat) (prefer : Option TextEnc) : Option Str :=
  let list0 : List TextEnc := match prefer with | some p => [p] | none => []
  let list1 := if looksLikeShiftJis data && ¬ list0.contains TextEnc.shiftJis
               then TextEnc.shiftJis :: list0 else list0
  let list2 := [TextEnc.utf8, TextEnc.utf16le, TextEnc.utf16be, TextEnc.shiftJis, TextEnc.latin1].foldl
    (fun l e => if l.contains e then l else l ++ [e]) list1
  let scored := list2.map (fun enc =>
    match decodeBytes sjisDec data enc with
    | none => ((none : Option Str), fInt (-1))
    | some s => (some s, scoreDecodedString s))
  match (scored.mergeSort (fun a b => decide (fle b.2 a.2))).head? with
  | some p => p.1
  | none => none

/-- Source `tryDecodeUTF8` (lines 501-504): the best-of heuristic. -/
def tryDecodeUTF8 (sjisDec : List Nat → Str) (u : List Nat) : Option Str :=
  decodeBest sjisDec u none

-- ---------------------------------------------------------------------------
-- decodeExifUserComment (source lines 514-573).  The source also accepts
-- plain strings and number arrays (for XP* tags); the only caller that can
-- reach this function passes the `Uint8Array` tag bytes (tag 0x9286), so the
-- byte-array branch is the one modelled.
-- ---------------------------------------------------------------------------

/-- Count NUL bytes at even/odd offsets. -/
def zeroParity (data : List Nat) : Nat × Nat :=
  (data.enum.countP (fun p => decide (p.2 = 0 ∧ p.1 % 2 = 0)),
   data.enum.countP (fun p => decide (p.2 = 0 ∧ p.1 % 2 = 1)))

/-- The prefix-stripped payload of a UserComment (`hasEnc` test and drop). -/
def ucData (raw : List Nat) : List Nat :=
  let pre := raw.take 8
  let hasEnc := strStarts pre (strToU8 (su "ASCII")) || strStarts pre (strToU8 (su "UNICODE")) ||
    strStarts pre (strToU8 (su "JIS"))
  if hasEnc then raw.drop 8 else raw

/-- The candidate strings tried by `decodeExifUserComment` (source lines
522-550), in push order: marker-driven candidates, then the heuristic
`tryEnc` panel, then the Shift_JIS fallback for non-UNICODE payloads. -/
def ucCandidates (sjisDec : List Nat → Str) (raw : List Nat) : List Str :=
  let pre := raw.take 8
  let isUnicode := strStarts pre (strToU8 (su "UNICODE"))
  let isJis := strStarts pre (strToU8 (su "JIS"))
  let data := ucData raw
  let push := fun (acc : List Str) (d : Option Str) =>
    match d with
    | some s => if s ≠ [] then acc ++ [s] else acc
    | none => acc
  let c1 := if isJis then push [] (decodeBytes sjisDec data .shiftJis) else []
  let c2 := if isUnicode then
      push (push c1 (decodeBytes sjisDec data .utf16le)) (decodeBytes sjisDec data .utf16be)
    else c1
  let total := data.length
  let zp := zeroParity data
  let utf16Likely := 5 * (zp.1 + zp.2) > max 1 total
  let preferLE := if utf16Likely then zp.2 ≥ zp.1 else False
  let tryEnc : List TextEnc :=
    if ¬ isUnicode ∧ utf16Likely then
      (if preferLE then [.utf16le, .utf16] else [.utf16be, .utf16]) ++ [.utf8]
    else [.utf8, .utf16le, .utf16]
  let c3 := tryEnc.foldl (fun acc enc => push acc (decodeBytes sjisDec data enc)) c2
  if ¬ isUnicode then push c3 (decodeBytes sjisDec data .shiftJis) else c3

/-- The candidate score of `decodeExifUserComment` (source line 556). -/
def ucScore (s : Str) : Frac := fadd (scoreSdTextCandidate s) (fmul ⟨1, 2⟩ (scoreDecodedString s))

/-- One best-candidate step (source lines 552-560): strip NULs, skip empty,
keep a strictly better scorer. -/
def ucStep (acc : Option Str × Frac) (s0 : Str) : Option Str × Frac :=
  let s := stripNuls s0
  if s = [] then acc
  else if flt acc.2 (ucScore s) then (some s, ucScore s) else acc

/-- Source `decodeExifUserComment` on tag bytes: strip NULs from each candidate,
keep the first strict-maximum scorer above the initial `-1`, fall back to
Latin-1. -/
def decodeExifUserComment (sjisDec : List Nat → Str) (raw : List Nat) : Option Str :=
  let z := (ucCandidates sjisDec raw).foldl ucStep (none, fInt (-1))
  match z.1 with
  | some b => some b
  | none =>
    let s := latin1FromU8 (ucData raw)
    if s ≠ [] then some (stripNuls s) else none

-- ---------------------------------------------------------------------------
-- A1111 block locator / scorer (source lines 883-960, 1085-1090).
-- ---------------------------------------------------------------------------

/-- Source `extractParametersBlock` (lines 888-902). -/
def extractParametersBlock (text : Str) : Option Str :=
  match idxOf? text negLabelCS with
  | none => none
  | some k =>
    let nlAfterNeg := idxFrom text [10] k
    let tailStart :=
      match nlAfterNeg with
      | some n => if n > 0 then n + 1 else text.length
      | none => text.length
    match pickSettingsLineWithIndex (text.drop tailStart) with
    | some pe => some (text.take (tailStart + pe.2))
    | none => some text

/-- Source `extractA1111BlockFromText` (lines 926-942). -/
def extractA1111BlockFromText (src : Str) : Option Str :=
  if src = [] then none
  else
    let s := maybeFixUtf16EndianMisdecode src
    match idxOf? s negLabelCS with
    | none => none
    | some negIdx =>
      let nlAfterNeg := idxFrom s [10] negIdx
      let tailStart :=
        match nlAfterNeg with
        | some n => if n > 0 then n + 1 else s.length
        | none => s.length
      match pickSettingsLineWithIndex (s.drop tailStart) with
      | some pe => some (s.take (tailStart + pe.2))
      | none => some s

/-- Source `extractBySettingsLineOnly` (lines 1085-1090). -/
def extractBySettingsLineOnly (text : Str) : Option Str :=
  match pickSettingsLineWithIndex text with
  | some pe => some (text.take pe.2)
  | none => none

/-- Source `scoreA1111Block` (lines 944-960); integer scores. -/
def scoreA1111Block (s : Str) : Int :=
  if s = [] then 0
  else
    let lower := toLowerJS s
    let sc1 : Int :=
      (if containsStr lower (su "negative prompt:") then 5 else 0) +
      (if containsStr lower (su "steps:") then 4 else 0) +
      (if containsStr lower (su "sampler:") then 2 else 0) +
      (if containsStr lower (su "cfg scale:") then 2 else 0) +
      (if containsStr lower (su "seed:") then 2 else 0) +
      (if containsStr lower (su "size:") then 2 else 0)
    let lines := ((splitLines s).filter (fun l => trimJS l ≠ [])).length
    let sc2 : Int := if lines = 3 then 3 else if lines = 2 then 2 else if lines ≥ 4 then 1 else 0
    let len := s.length
    sc1 + sc2 + (if 50 < len ∧ len < 4000 then 1 else 0)

-- ---------------------------------------------------------------------------
-- Forge/JSON → A1111 converter and SD-text interpretation (source 778-829).
-- ---------------------------------------------------------------------------

/-- The prompt value of the Forge converter: `md.prompt || md.Prompt || ""`. -/
def forgePromptVal (md : Json) : Json :=
  (jsOr (jsOr (jsGet md (su "prompt")) (jsGet md (su "Prompt"))) (some (.str []))).getD (.str [])

/-- `md.negativePrompt || md["Negative prompt"] || md.negative_prompt || ""`. -/
def forgeNegVal (md : Json) : Json :=
  (jsOr (jsOr (jsOr (jsGet md (su "negativePrompt")) (jsGet md (su "Negative prompt")))
    (jsGet md (su "negative_prompt"))) (some (.str []))).getD (.str [])

/-- The second output line: the label always, the value when truthy. -/
def forgeLine2 (md : Json) : Str :=
  if jsTruthyV (forgeNegVal md) then su "Negative prompt: " ++ jsToString (forgeNegVal md)
  else su "Negative prompt:"

/-- The settings entries of the Forge converter, in source order (lines
810-825): Steps, Sampler, CFG scale, Seed, Size, Model, each only when set. -/
def forgeTail (md : Json) : List Str :=
  let steps := jsCoal (jsGet md (su "steps")) (jsGet md (su "Steps"))
  let sampler := jsOr (jsGet md (su "sampler")) (jsGet md (su "Sampler"))
  let cfg := jsCoal (jsCoal (jsGet md (su "cfgScale")) (jsGet md (su "cfg"))) (jsGet md (su "CFG scale"))
  let seed := jsCoal (jsGet md (su "seed")) (jsGet md (su "Seed"))
  let width := jsCoal (jsGet md (su "width")) (jsGet md (su "Width"))
  let height := jsCoal (jsGet md (su "height")) (jsGet md (su "Height"))
  let hashesModel :=
    let hs := jsGet md (su "hashes")
    if jsTruthy hs then jsGet (hs.getD .null) (su "model") else hs
  let model := jsCoal (jsCoal (jsGet md (su "model")) (jsGet md (su "Model"))) hashesModel
  (if steps.isSome then [su "Steps: " ++ jsToString (steps.getD .null)] else []) ++
  (if jsTruthy sampler then [su "Sampler: " ++ jsToString (sampler.getD .null)] else []) ++
  (if cfg.isSome then [su "CFG scale: " ++ jsToString (cfg.getD .null)] else []) ++
  (if seed.isSome then [su "Seed: " ++ jsToString (seed.getD .null)] else []) ++
  (if jsTruthy width && jsTruthy height then
    [su "Size: " ++ jsToString (width.getD .null) ++ [120] ++ jsToString (height.getD .null)] else []) ++
  (if jsTruthy model then [su "Model: " ++ jsToString (model.getD .null)] else [])

/-- Source `forgeMetadataToParameters` (lines 805-829): prompt line (`trim`med
on both sides), `Negative prompt:` line, comma-joined settings line when any,
and a final `trim` of the joined text. -/
def forgeMetadataToParameters (md : Json) : Option Str :=
  if ¬ (jsTruthyV md && isObjTypeJS md) then none
  else
    let lines := [trimJS (jsToString (forgePromptVal md)), forgeLine2 md] ++
      (if forgeTail md ≠ [] then [joinStr (su ", ") (forgeTail md)] else [])
    some (trimJS (joinStr [10] lines))

/-- Source `tryParseJsonPayload` (lines 794-803). -/
def tryParseJsonPayload (jsonParse : Str → Option Json) (text : Str) : Option Json :=
  match jsonParse text with
  | some j => some j
  | none =>
    match idxOf? text [123], lastIdxUnit text 125 text.length with
    | some s, some e => if s < e then jsonParse (sliceJS text s (e + 1)) else none
    | _, _ => none

/-- Source `interpretSdText` (lines 779-792). -/
def interpretSdText (jsonParse : Str → Option Json) (text : Str) : Option Str :=
  if text = [] then none
  else
    let fixed := maybeFixUtf16EndianMisdecode text
    let fromJson : Option Str :=
      match tryParseJsonPayload jsonParse fixed with
      | some obj =>
        if jsTruthyV obj && (match obj with | .obj _ => true | _ => false) then
          let md := (jsOr (jsOr (jsGet obj (su "sd-metadata")) (jsGet obj (su "sd_metadata"))) (some obj)).getD obj
          let asText : Option Json :=
            match forgeMetadataToParameters md with
            | some t => if t ≠ [] then some (.str t) else jsGet obj (su "parameters")
            | none => jsGet obj (su "parameters")
          match asText with
          | some (.str t) => if t ≠ [] then some t else none
          | _ => none
        else none
      | none => none
    match fromJson with
    | some t => some t
    | none =>
      if (anchoredSearch negLabelLower fixed).isSome ∨ (anchoredSearch (su "steps:") fixed).isSome then some fixed
      else if countUnit fixed 44 ≥ 2 ∨ fixed.length > 80 then some fixed
      else none

/-- Source `selectBestParametersFromTexts` (lines 1049-1067). -/
def selectBestParametersFromTexts (jsonParse : Str → Option Json) (texts : List Str) : Option Str :=
  let best := texts.foldl (fun (best : Option (Str × Int)) t =>
    if t = [] then best
    else
      match extractA1111BlockFromText t with
      | some primary =>
        let sc := scoreA1111Block primary
        match best with
        | none => some (primary, sc)
        | some b => if sc > b.2 then some (primary, sc) else best
      | none =>
        match interpretSdText jsonParse t with
        | some interp =>
          let blk := (extractA1111BlockFromText interp).getD interp
          let sc := scoreA1111Block blk
          match best with
          | none => some (blk, sc)
          | some b => if sc > b.2 then some (blk, sc) else best
        | none => best) none
  best.map (·.1)

-- ---------------------------------------------------------------------------
-- Recovery engine (source lines 849-882, 981-1046, 1070-1084).
-- ---------------------------------------------------------------------------

/-- Source `scanFileForSdText` (lines 849-875): targeted UTF-16 window scan for
`Negative prompt:`, LE pattern first. -/
def scanFileForSdText (u8 : List Nat) : Option Str :=
  let ascii := su "Negative prompt:"
  let le := ascii.flatMap (fun ch => [ch, 0])
  let be := ascii.flatMap (fun ch => [0, ch])
  let tryWin := fun (idx : Option Nat) (dec : List Nat → Str) =>
    match idx with
    | some i => extractParametersBlock (dec (sliceJS u8 (i - 4096) (min u8.length (i + 8192))))
    | none => none
  match tryWin (idxOf? u8 le) utf16leDecJS with
  | some blk => some blk
  | none => tryWin (idxOf? u8 be) utf16beDecJS

/-- The brace-matching loop of `scanWholeFileForMeta` (lines 994-999). -/
def braceScan : Str → Nat → Int → Option Nat
  | [], _, _ => none
  | c :: rest, i, depth =>
    if c = 123 then braceScan rest (i + 1) (depth + 1)
    else if c = 125 then
      if depth - 1 = 0 then some (i + 1) else braceScan rest (i + 1) (depth - 1)
    else braceScan rest (i + 1) depth

/-- Source `scanWholeFileForMeta` (lines 981-1022): decode the file as UTF-8,
look for an SD key, try the enclosing JSON object, else return a window around
the `Negative prompt:` marker (trimmed).  `return asText` returns the JS value
unchanged, so the result can be a *non-string* JSON value (for example
`obj["parameters"]` when the forge conversion declines); the marker-window
branch returns a string, and `return block.trim()` can return the empty
string, which the caller's truthiness test treats as failure. -/
def scanWholeFileForMeta (jsonParse : Str → Option Json) (u8 : List Nat) : Option Json :=
  let text := utf8DecJS u8
  let keys : List Str := [su "sd-metadata", su "sd_metadata",
    [34] ++ su "prompt" ++ [34], [34] ++ su "Negative prompt" ++ [34], negLabelCS]
  keys.findSome? (fun key =>
    match idxOf? text key with
    | none => none
    | some idx =>
      let fromJson : Option Json :=
        match lastIdxUnit text 123 idx, idxFrom text [125] idx with
        | some startB, some _ =>
          match braceScan (text.drop startB) startB 0 with
          | some e =>
            match jsonParse (sliceJS text startB e) with
            | some obj =>
              let md := (jsOr (jsOr (jsGet obj (su "sd-metadata")) (jsGet obj (su "sd_metadata"))) (some obj)).getD obj
              let asText : Option Json :=
                match forgeMetadataToParameters md with
                | some t => if t ≠ [] then some (.str t) else jsGet obj (su "parameters")
                | none => jsGet obj (su "parameters")
              match asText with
              | some v => if jsTruthyV v then some v else none
              | none => none
            | none => none
          | none => none
        | _, _ => none
      match fromJson with
      | some r => some r
      | none =>
        match anchoredSearch negLabelLower text with
        | some nidx =>
          let start := nidx - 1200
          let firstLineEnd := idxFrom text [10] start
          let stop :=
            match idxFrom text [10, 10] nidx with
            | some e => e
            | none =>
              match firstLineEnd with
              | some f => f
              | none => nidx + 2000
          let block := sliceJS text start stop
          if block ≠ [] then some (.str (trimJS block)) else none
        | none => none)

/-- Source `scanWholeFileForUtf16A1111` (lines 1025-1039). -/
def scanWholeFileForUtf16A1111 (u8 : List Nat) : Option Str :=
  let best := [utf16leDecJS u8, utf16beDecJS u8].foldl
    (fun (best : Option (Str × Int)) t =>
      if t = [] then best
      else
        match (match extractA1111BlockFromText t with
               | some b => some b
               | none => extractBySettingsLineOnly t) with
        | none => best
        | some blk =>
          let sc := scoreA1111Block blk - (if looksGarbled blk then 5 else 0)
          match best with
          | none => some (blk, sc)
          | some b => if sc > b.2 then some (blk, sc) else best) none
  best.map (·.1)

/-- Source `scanWholeFileForSjisA1111` (lines 1040-1046). -/
def scanWholeFileForSjisA1111 (sjisDec : List Nat → Str) (u8 : List Nat) : Option Str :=
  let text := sjisDec u8
  match extractA1111BlockFromText text with
  | some b => some b
  | none => extractBySettingsLineOnly text

/-- Source `recoverParameters` (lines 1070-1084): with no existing text, the
order is JSON scan, targeted window scan, whole-file UTF-16, Shift_JIS; with a
garbled existing text the JSON scan is skipped.  The `if (j) return j` gate is
JS truthiness of the *value*: the JSON scan may hand back a non-string JSON
value (truthy even for an empty array), which is returned unchanged; the
other steps produce strings. -/
def recoverParameters (jsonParse : Str → Option Json) (sjisDec : List Nat → Str)
    (u8 : List Nat) (existing : Option Str) : Option Json :=
  if ¬ truthyStr existing then
    let j := scanWholeFileForMeta jsonParse u8
    if jsTruthy j then j
    else
      let near := scanFileForSdText u8
      if truthyStr near then near.map .str
      else
        let utf16 := scanWholeFileForUtf16A1111 u8
        if truthyStr utf16 then utf16.map .str
        else
          let sj := scanWholeFileForSjisA1111 sjisDec u8
          if truthyStr sj then sj.map .str else none
  else
    if ¬ looksGarbled (existing.getD []) then none
    else
      let near := scanFileForSdText u8
      if truthyStr near then near.map .str
      else
        let utf16 := scanWholeFileForUtf16A1111 u8
        if truthyStr utf16 then utf16.map .str
        else
          let sj := scanWholeFileForSjisA1111 sjisDec u8
          if truthyStr sj then sj.map .str else none

-- ---------------------------------------------------------------------------
-- EXIF TIFF sub-parser (source lines 687-776).
-- ---------------------------------------------------------------------------

/-- The `Exif\x00\x00` APP1 prefix. -/
def exifSig : List Nat := strToU8 (su "Exif") ++ [0, 0]

/-- TIFF type sizes (`typeSize` table, default 1). -/
def typeSizeOf (typ : Nat) : Nat :=
  match typ with
  | 1 => 1 | 2 => 1 | 3 => 2 | 4 => 4 | 5 => 8 | 7 => 1 | 9 => 4 | 10 => 8
  | _ => 1

/-- The result record of `extractExifTextsFromBytes`. -/
structure ExifTexts where
  user : Option Str
  xp : Option Str
  desc : Option Str

/-- Source `extractExifTextsFromBytes` (lines 688-776).  Returns `none` for the
`return null` paths (the JPEG caller dereferences the null and the exception is
swallowed by its `try`/`catch`). -/
def extractExifTextsFromBytes (sjisDec : List Nat → Str) (data : List Nat) : Option ExifTexts :=
  if ¬ strStarts data exifSig then none
  else
    let base := 6
    if data.length < base + 8 then none
    else
      let isLE := sliceJS data base (base + 2) = su "II"
      let u16 := fun (o : Nat) =>
        if isLE then data.getD o 0 + 256 * data.getD (o + 1) 0
        else 256 * data.getD o 0 + data.getD (o + 1) 0
      let u32 := fun (o : Nat) =>
        if isLE then
          data.getD o 0 + 256 * data.getD (o + 1) 0 + 65536 * data.getD (o + 2) 0 +
            16777216 * data.getD (o + 3) 0
        else
          16777216 * data.getD o 0 + 65536 * data.getD (o + 1) 0 + 256 * data.getD (o + 2) 0 +
            data.getD (o + 3) 0
      if u16 (base + 2) ≠ 42 then none
      else
        let readIFD := fun (off : Nat) =>
          if off = 0 ∨ off + 2 > data.length then ([] : List (Nat × (Nat × Nat × List Nat)))
          else
            let count := u16 off
            ((List.range count).takeWhile (fun i => off + 2 + i * 12 + 12 ≤ data.length)).foldl
              (fun tags i =>
                let e := off + 2 + i * 12
                let tag := u16 e
                let typ := u16 (e + 2)
                let cnt := u32 (e + 4)
                let total := typeSizeOf typ * cnt
                if total ≤ 4 then setk tags tag (typ, cnt, sliceJS data (e + 8) (e + 8 + total))
                else
                  let abs := base + u32 (e + 8)
                  if abs + total > data.length then tags
                  else setk tags tag (typ, cnt, sliceJS data abs (abs + total))) []
        let tags0 := readIFD (base + u32 (base + 4))
        let desc : Option Str :=
          match getk tags0 0x010E with
          | some t =>
            let v := stripTrailNuls t.2.2
            let utf16 :=
              (v.length ≥ 2 ∧ ((v.getD 0 0 = 0xFF ∧ v.getD 1 0 = 0xFE) ∨
                (v.getD 0 0 = 0xFE ∧ v.getD 1 0 = 0xFF))) ∨
              (v ≠ [] ∧ 5 * countUnit v 0 > v.length)
            if utf16 then decodeBytes sjisDec v .utf16
            else
              match tryDecodeUTF8 sjisDec v with
              | some u8s =>
                if containsStr u8s [0xFFFD] then
                  match decodeShiftJIS sjisDec v with
                  | some sj => some sj
                  | none => some u8s
                else some u8s
              | none => none
          | none => none
        let user : Option Str :=
          match getk tags0 0x8769 with
          | some t =>
            let ptr := t.2.2
            let sub := base +
              (if isLE then
                ptr.getD 0 0 + 256 * ptr.getD 1 0 + 65536 * ptr.getD 2 0 + 16777216 * ptr.getD 3 0
               else
                16777216 * ptr.getD 0 0 + 65536 * ptr.getD 1 0 + 256 * ptr.getD 2 0 + ptr.getD 3 0)
            match getk (readIFD sub) 0x9286 with
            | some uc => decodeExifUserComment sjisDec uc.2.2
            | none => none
          | none => none
        let xp : Option Str :=
          let tryTag := fun (t : Nat) =>
            match getk tags0 t with
            | some e =>
              match decodeBytes sjisDec e.2.2 .utf16le with
              | some s => if s ≠ [] then some (stripTrailNuls s) else none
              | none => none
            | none => none
          match tryTag 0x9C9C with
          | some r => some r
          | none => tryTag 0x9C9B
        some { user := user.map maybeFixUtf16EndianMisdecode,
               xp := xp.map maybeFixUtf16EndianMisdecode,
               desc := desc.map maybeFixUtf16EndianMisdecode }

-- ---------------------------------------------------------------------------
-- XMP attribute extraction and XMP chunk decoding (source 439-488, 963-978).
-- ---------------------------------------------------------------------------

/-- Source `htmlUnescape` (lines 976-978): the five entity replacements, in
source order (sequential, so `&amp;lt;` cascades to `<` as in JS). -/
def htmlUnescape (s : Str) : Str :=
  replaceAllLit (replaceAllLit (replaceAllLit (replaceAllLit (replaceAllLit
    s (su "&quot;") [34]) (su "&apos;") [39]) (su "&amp;") [38]) (su "&lt;") [60]) (su "&gt;") [62]

/-- One attempt of the `key\s*=\s*(["'])(.*?)\1` regex (flags `is`) at index `i`:
the value is the lazily-shortest span up to the next matching quote. -/
def xmpAttrAt (key : Str) (xml : Str) (i : Nat) : Option Str :=
  let t := xml.drop i
  if ¬ ciStarts t key then none
  else
    let t2 := (t.drop key.length).dropWhile isSpaceJS
    match t2 with
    | 61 :: t3 =>
      match t3.dropWhile isSpaceJS with
      | q :: t5 =>
        if q = 34 ∨ q = 39 then
          match idxOf? t5 [q] with
          | some m => some (t5.take m)
          | none => none
        else none
      | [] => none
    | _ => none

/-- Leftmost match of the XMP attribute regex. -/
def xmpAttrSearch (key : Str) (xml : Str) : Option Str :=
  (List.range xml.length).findSome? (fun i => xmpAttrAt key xml i)

/-- Source `extractFromXmpAttributes` (lines 963-975); a match with an empty
captured value is skipped (`if (m && m[2])`). -/
def extractFromXmpAttributes (xml : Str) : List Str :=
  [su "sd-metadata", su "sd_metadata", su "parameters", su "Parameters"].foldl
    (fun out key =>
      match xmpAttrSearch key xml with
      | some v => if v ≠ [] then out ++ [htmlUnescape v] else out
      | none => out) []

/-- Source `decodeByXmlEncoding` (lines 479-488); the encoding name argument is
already lower-cased by the caller. -/
def decodeByXmlEncoding (sjisDec : List Nat → Str) (data : List Nat) (enc : Str) : Option Str :=
  if enc = su "utf-8" then some (utf8DecJS data)
  else if enc = su "utf-16" ∨ enc = su "utf-16le" then some (utf16leDecJS data)
  else if enc = su "utf-16be" then some (utf16beDecJS data)
  else if enc = su "shift_jis" ∨ enc = su "windows-31j" ∨ enc = su "sjis" then
    decodeShiftJIS sjisDec data
  else none

/-- A character of the `[A-Za-z0-9_\-]+` class. -/
def encNameChar (c : Nat) : Bool :=
  (48 ≤ c ∧ c ≤ 57) ∨ (65 ≤ c ∧ c ≤ 90) ∨ (97 ≤ c ∧ c ≤ 122) ∨ c = 95 ∨ c = 45

/-- One attempt of `/encoding=["']([A-Za-z0-9_\-]+)["']/i` at index `i`. -/
def encAttrAt (s : Str) (i : Nat) : Option Str :=
  let t := s.drop i
  if ¬ ciStarts t (su "encoding=") then none
  else
    match t.drop 9 with
    | q :: t2 =>
      if q = 34 ∨ q = 39 then
        let name := t2.takeWhile encNameChar
        if name = [] then none
        else
          match t2.drop name.length with
          | q2 :: _ => if q2 = 34 ∨ q2 = 39 then some name else none
          | [] => none
      else none
    | [] => none

/-- Leftmost `encoding="..."` match, lower-cased (`m[1].toLowerCase()`). -/
def encAttrSearch (s : Str) : Option Str :=
  ((List.range s.length).findSome? (fun i => encAttrAt s i)).map toLowerJS

/-- Source `decodeXmpChunk` (lines 439-478). -/
def decodeXmpChunk (sjisDec : List Nat → Str) (data : List Nat) : Str :=
  if data.length ≥ 2 ∧ data.length ≥ 3 ∧ data.getD 0 0 = 0xEF ∧ data.getD 1 0 = 0xBB ∧
      data.getD 2 0 = 0xBF then
    utf8DecJS (data.drop 3)
  else if data.length ≥ 2 ∧ data.getD 0 0 = 0xFE ∧ data.getD 1 0 = 0xFF then
    utf16beDecJS (data.drop 2)
  else if data.length ≥ 2 ∧ data.getD 0 0 = 0xFF ∧ data.getD 1 0 = 0xFE then
    utf16leDecJS (data.drop 2)
  else
    let zeros := countUnit data 0
    if 5 * zeros > max 1 data.length then
      let zp := zeroParity data
      if zp.2 ≥ zp.1 then utf16leDecJS data else utf16beDecJS data
    else
      let best := decodeBest sjisDec data none
      let probe := best.getD (utf8DecJS data)
      match encAttrSearch probe with
      | some enc =>
        (match decodeByXmlEncoding sjisDec data enc with
         | some s => some s
         | none => best).getD probe
      | none => best.getD probe

-- ---------------------------------------------------------------------------
-- JPEG reader (source lines 236-357).
-- ---------------------------------------------------------------------------

/-- `http://ns.adobe.com/xap/1.0\x00`. -/
def xmpStdSig : List Nat := strToU8 (su "http://ns.adobe.com/xap/1.0") ++ [0]

/-- `http://ns.adobe.com/xmp/extension/\x00`. -/
def xmpExtSig : List Nat := strToU8 (su "http://ns.adobe.com/xmp/extension/") ++ [0]

/-- Accumulator state of the JPEG segment walk (lines 243-249). -/
structure JpegWalk where
  exifBytes : Option (List Nat)
  jpegComment : Option Str
  xmpMain : List Str
  xmpExt : List (Str × (Nat × List (Nat × List Nat)))

/-- Handling of one APP1/COM segment (lines 266-290). -/
def jpegSeg (sjisDec : List Nat → Str) (st : JpegWalk) (marker : Nat) (seg : List Nat) : JpegWalk :=
  if marker = 0xE1 then
    if strStarts seg exifSig then { st with exifBytes := some seg }
    else if strStarts seg xmpStdSig then
      { st with xmpMain := st.xmpMain ++ [utf8DecJS (seg.drop xmpStdSig.length)] }
    else if strStarts seg xmpExtSig then
      let rest := seg.drop xmpExtSig.length
      if rest.length ≥ 40 then
        let guid := safeAscii (rest.take 32)
        let total := readU32BE rest 32
        let off := readU32BE rest 36
        let d := (getk st.xmpExt guid).getD (total, [])
        { st with xmpExt := setk st.xmpExt guid (total, setk d.2 off (rest.drop 40)) }
      else st
    else st
  else if marker = 0xFE then
    match tryDecodeUTF8 sjisDec seg with
    | some txt => if txt ≠ [] then { st with jpegComment := some txt } else st
    | none => st
  else st

/-- The JPEG marker walk (lines 252-291) with structural fuel so the kernel
can evaluate it: every recursive call strictly increases `off` and the loop
stops once `off + 4 > u8.length`, so `u8.length + 1` fuel (supplied by
`jpegWalkLoop` below) is never exhausted and the `0` case is unreachable. -/
def jpegWalkF (sjisDec : List Nat → Str) (u8 : List Nat) : Nat → Nat → JpegWalk → JpegWalk
  | 0, _, st => st
  | fuel + 1, off, st =>
    if off + 4 ≤ u8.length then
      if u8.getD off 0 ≠ 0xFF then jpegWalkF sjisDec u8 fuel (off + 1) st
      else
        let off2 := off + ((u8.drop off).takeWhile (fun b => b = 0xFF)).length
        if off2 ≥ u8.length then st
        else
          let marker := u8.getD off2 0
          let off3 := off2 + 1
          if marker = 0xD9 ∨ marker = 0xDA then st
          else if 0xD0 ≤ marker ∧ marker ≤ 0xD7 then jpegWalkF sjisDec u8 fuel off3 st
          else if off3 + 2 > u8.length then st
          else
            let seglen := 256 * u8.getD off3 0 + u8.getD (off3 + 1) 0
            if seglen < 2 ∨ off3 + 2 + (seglen - 2) > u8.length then st
            else
              jpegWalkF sjisDec u8 fuel (off3 + 2 + (seglen - 2))
                (jpegSeg sjisDec st marker (sliceJS u8 (off3 + 2) (off3 + 2 + (seglen - 2))))
    else st

/-- The JPEG marker walk (lines 252-291): skip to `FF`, read the marker,
terminate on EOI/SOS, skip RST markers, otherwise read the 2-byte big-endian
length and the payload. -/
def jpegWalkLoop (sjisDec : List Nat → Str) (u8 : List Nat) (off : Nat) (st : JpegWalk) : JpegWalk :=
  jpegWalkF sjisDec u8 (u8.length + 1) off st

/-- Assembly of one Extended XMP GUID (lines 310-315): chunk payloads
concatenated in ascending offset order, truncated to
`min(declared total, assembled length)`. -/
def assembleExtChunk (info : Nat × List (Nat × List Nat)) : List Nat :=
  let offsets := (info.2.map (·.1)).mergeSort (fun a b => decide (a ≤ b))
  let buf := offsets.foldl (fun b o => b ++ ((getk info.2 o).getD [])) []
  buf.take (min info.1 buf.length)

/-- XMP reconstruction (lines 304-318): standard fragments joined, followed by
each GUID's decoded assembly. -/
def reconstructXmp (xmpMain : List Str)
    (xmpExt : List (Str × (Nat × List (Nat × List Nat)))) : Option Str :=
  if xmpMain ≠ [] ∨ xmpExt ≠ [] then
    some (joinStr [] xmpMain ++ xmpExt.foldl (fun acc g => acc ++ utf8DecJS (assembleExtChunk g.2)) [])
  else none

/-- Push a truthy optional string as a candidate text. -/
def pushText (acc : List Str) (t : Option Str) : List Str :=
  match t with
  | some s => if s ≠ [] then acc ++ [s] else acc
  | none => acc

/-- The fields/raw computation of `parseJpeg` (lines 236-357).  `none` models
an uncaught TypeError escaping the parser: a truthy non-string
`raw["parameters"]` (recovered from `scanWholeFileForMeta`) meets
`looksGarbled` at line 346 (`.indexOf`/`.charCodeAt` missing) or
`normalizeKnownFields`'s `txt.split` at line 111. -/
def parseJpegCore (jsonParse : Str → Option Json) (sjisDec : List Nat → Str)
    (u8 : List Nat) : Option (List (Str × FieldVal) × List (Str × Str)) :=
  if ¬ (u8.length ≥ 2 ∧ u8.getD 0 0 = 0xFF ∧ u8.getD 1 0 = 0xD8) then
    some ([], [])
  else
    let st := jpegWalkLoop sjisDec u8 2 ⟨none, none, [], []⟩
    let exifTexts : List Str :=
      match st.exifBytes with
      | some eb =>
        match extractExifTextsFromBytes sjisDec eb with
        | some m => pushText (pushText (pushText [] m.user) m.xp) m.desc
        | none => []
      | none => []
    let xmpXml := reconstructXmp st.xmpMain st.xmpExt
    let tryTexts := exifTexts ++
      (match xmpXml with
       | some x => if x ≠ [] then extractFromXmpAttributes x ++ [x] else []
       | none => []) ++
      pushText [] st.jpegComment
    -- raw["parameters"] carried as the JS value it is (absent = none; only
    -- truthy values are ever stored, and the selection step yields strings)
    let pv1 : Option Json :=
      match selectBestParametersFromTexts jsonParse tryTexts with
      | some s => if s ≠ [] then some (.str s) else none
      | none => none
    let pv2 : Option Json :=
      match pv1 with
      | none =>
        let rec1 := recoverParameters jsonParse sjisDec u8 none
        if jsTruthy rec1 then rec1 else pv1
      | some (.str s) =>
        if looksGarbled s then
          let rec1 := recoverParameters jsonParse sjisDec u8 (some s)
          if jsTruthy rec1 then rec1 else pv1
        else pv1
      | some _ => pv1
    -- the raw map in insertion order ("parameters" first when present), for a
    -- given final string value of raw["parameters"]
    let rawWith : Option Str → List (Str × Str) := fun p =>
      let r1 :=
        match p with
        | some s => setk ([] : List (Str × Str)) (su "parameters") s
        | none => []
      let r3 := if exifTexts ≠ [] then setk r1 (su "EXIF") (joinStr [10] exifTexts) else r1
      let r4 :=
        match xmpXml with
        | some x => if x ≠ [] then setk r3 (su "XMP") x else r3
        | none => r3
      match st.jpegComment with
      | some c => if c ≠ [] then setk r4 (su "Comment") c else r4
      | none => r4
    match pv2 with
    | none =>
      let raw6 := rawWith none
      some (normalizeKnownFields jsonParse raw6, raw6)
    | some (.str s) =>
      let raw6 :=
        if s ≠ [] ∧ looksGarbled s then
          let recovered := scanFileForSdText u8
          if truthyStr recovered then rawWith (some (recovered.getD []))
          else
            let whole :=
              match scanWholeFileForUtf16A1111 u8 with
              | some w => some w
              | none => scanWholeFileForSjisA1111 sjisDec u8
            if truthyStr whole then rawWith (some (whole.getD [])) else rawWith (some s)
        else rawWith (some s)
      some (normalizeKnownFields jsonParse raw6, raw6)
    | some v =>
      -- truthy non-string value at the line-346 gate
      match looksGarbledV v with
      | none => none
      | some true =>
        let recovered := scanFileForSdText u8
        if truthyStr recovered then
          let raw6 := rawWith (some (recovered.getD []))
          some (normalizeKnownFields jsonParse raw6, raw6)
        else
          let whole :=
            match scanWholeFileForUtf16A1111 u8 with
            | some w => some w
            | none => scanWholeFileForSjisA1111 sjisDec u8
          if truthyStr whole then
            let raw6 := rawWith (some (whole.getD []))
            some (normalizeKnownFields jsonParse raw6, raw6)
          else none
      | some false => none

/-- Source `parseJpeg` (lines 236-357): both return sites carry format
`jpeg`; `none` is an uncaught TypeError (no result at all). -/
def parseJpeg (jsonParse : Str → Option Json) (sjisDec : List Nat → Str)
    (u8 : List Nat) : Option ImageMeta :=
  (parseJpegCore jsonParse sjisDec u8).map
    (fun fr => { format := .jpeg, fields := fr.1, raw := fr.2 })

-- ---------------------------------------------------------------------------
-- WebP reader (source lines 359-436).
-- ---------------------------------------------------------------------------

/-- RIFF/WEBP signature test. -/
def webpSigOk (u8 : List Nat) : Bool :=
  u8.length ≥ 12 ∧ u8.getD 0 0 = 0x52 ∧ u8.getD 1 0 = 0x49 ∧ u8.getD 2 0 = 0x46 ∧
  u8.getD 3 0 = 0x46 ∧ u8.getD 8 0 = 0x57 ∧ u8.getD 9 0 = 0x45 ∧ u8.getD 10 0 = 0x42 ∧
  u8.getD 11 0 = 0x50

/-- The RIFF chunk walk (lines 371-386): `tag:4cc, size:u32le, data, pad`. -/
def webpWalkLoop (sjisDec : List Nat → Str) (u8 : List Nat) (off : Nat)
    (st : Option (List Nat) × Option Str) : Option (List Nat) × Option Str :=
  if h : off + 8 ≤ u8.length then
    let tag : Str := [u8.getD off 0, u8.getD (off + 1) 0, u8.getD (off + 2) 0, u8.getD (off + 3) 0]
    let size := u8.getD (off + 4) 0 + 256 * u8.getD (off + 5) 0 + 65536 * u8.getD (off + 6) 0 +
      16777216 * u8.getD (off + 7) 0
    if off + 8 + size > u8.length then st
    else
      let data := sliceJS u8 (off + 8) (off + 8 + size)
      let st2 :=
        if tag = su "EXIF" then (some data, st.2)
        else if tag = su "XMP " then (st.1, some (decodeXmpChunk sjisDec data))
        else st
      webpWalkLoop sjisDec u8 (off + 8 + size + size % 2) st2
  else st
termination_by u8.length - off
decreasing_by all_goals omega

/-- The fields/raw computation of `parseWebp` (lines 359-436).  `none` models
the TypeError thrown inside `normalizeKnownFields` (`txt.split`, line 111)
when a truthy non-string `raw["parameters"]` survives recovery; unlike the
JPEG path there is no later garble gate, so every such value crashes. -/
def parseWebpCore (jsonParse : Str → Option Json) (sjisDec : List Nat → Str)
    (u8 : List Nat) : Option (List (Str × FieldVal) × List (Str × Str)) :=
  if ¬ webpSigOk u8 then some ([], [])
  else
    let w := webpWalkLoop sjisDec u8 12 (none, none)
    let exifTexts : List Str :=
      match w.1 with
      | some ec =>
        if ec.length ≥ 8 then
          let payload := if ¬ strStarts ec exifSig then exifSig ++ ec else ec
          match extractExifTextsFromBytes sjisDec payload with
          | some m => pushText (pushText (pushText [] m.user) m.xp) m.desc
          | none => []
        else []
      | none => []
    let xmpXml := w.2
    let tryTexts := exifTexts ++
      (match xmpXml with
       | some x => if x ≠ [] then extractFromXmpAttributes x ++ [x] else []
       | none => [])
    let pv1 : Option Json :=
      match selectBestParametersFromTexts jsonParse tryTexts with
      | some s => if s ≠ [] then some (.str s) else none
      | none => none
    let pv2 : Option Json :=
      match pv1 with
      | none =>
        let rec2 := recoverParameters jsonParse sjisDec u8 none
        if jsTruthy rec2 then rec2 else pv1
      | some (.str s) =>
        if looksGarbled s then
          let rec2 := recoverParameters jsonParse sjisDec u8 (some s)
          if jsTruthy rec2 then rec2 else pv1
        else pv1
      | some _ => pv1
    let rawWith : Option Str → List (Str × Str) := fun p =>
      let r1 :=
        match p with
        | some s => setk ([] : List (Str × Str)) (su "parameters") s
        | none => []
      let r3 := if exifTexts ≠ [] then setk r1 (su "EXIF") (joinStr [10] exifTexts) else r1
      match xmpXml with
      | some x => if x ≠ [] then setk r3 (su "XMP") x else r3
      | none => r3
    match pv2 with
    | none =>
      let raw4 := rawWith none
      some (normalizeKnownFields jsonParse raw4, raw4)
    | some (.str s) =>
      let raw4 := rawWith (some s)
      some (normalizeKnownFields jsonParse raw4, raw4)
    | some _ => none

/-- Source `parseWebp` (lines 359-436): both return sites carry format
`webp`; `none` is an uncaught TypeError (no result at all). -/
def parseWebp (jsonParse : Str → Option Json) (sjisDec : List Nat → Str)
    (u8 : List Nat) : Option ImageMeta :=
  (parseWebpCore jsonParse sjisDec u8).map
    (fun fr => { format := .webp, fields := fr.1, raw := fr.2 })

-- ---------------------------------------------------------------------------
-- Entry point (source lines 16-23).
-- ---------------------------------------------------------------------------

/-- Source `parseImageMeta`: lower-case the hint and dispatch.  An exception
thrown by a branch propagates (the caller gets no result), hence the
`Option`; the PNG branch and the fallback never throw. -/
def parseImageMeta (inflate : List Nat → Option (List Nat)) (jsonParse : Str → Option Json)
    (sjisDec : List Nat → Str) (buf : List Nat) (ext : Str) : Option ImageMeta :=
  let lower := toLowerJS ext
  if lower = su "png" then some (parsePng inflate jsonParse buf)
  else if lower = su "jpg" ∨ lower = su "jpeg" then parseJpeg jsonParse sjisDec buf
  else if lower = su "webp" then parseWebp jsonParse sjisDec buf
  else some { format := .unknown, fields := [], raw := [] }

-- ---------------------------------------------------------------------------
-- Concrete instantiations of the external functions, used by the closed
-- witness/counterexample statements below.
-- ---------------------------------------------------------------------------

/-- An `inflateSync` instantiation that always fails (throws).  Every concrete
input below either never reaches `inflate` or reaches it only on malformed
deflate data. -/
def inflNone : List Nat → Option (List Nat) := fun _ => none

/-- A `JSON.parse` instantiation that always fails (throws).  Every concrete
input below keeps `JSON.parse` unreached or feeds it only non-JSON text. -/
def jsonNone : Str → Option Json := fun _ => none

/-- The WHATWG Shift_JIS decoder restricted to its single-byte ranges: bytes
`0x00`–`0x80` decode to themselves and `0xA1`–`0xDF` to halfwidth katakana
`U+FF61`–`U+FF9F`, exactly as in the standard.  Double-byte lead bytes (which
the standard resolves through the JIS index table) are conservatively mapped
to U+FFFD; every concrete input below stays inside the single-byte ranges. -/
def sjisModel : List Nat → Str :=
  fun bs => bs.map (fun b =>
    if b ≤ 0x80 then b
    else if 0xA1 ≤ b ∧ b ≤ 0xDF then 0xFF61 + (b - 0xA1)
    else 0xFFFD)

/-- First JS-truthy result of an ordered list of recovery-step results (the
"first successful step wins" reading of the spec, with JS truthiness of the
step values). -/
def firstTruthyV (xs : List (Option Json)) : Option Json :=
  xs.findSome? (fun x => if jsTruthy x then x else none)

-- ---------------------------------------------------------------------------
-- Concrete inputs for the counterexample statements.
-- ---------------------------------------------------------------------------

/-- A PNG chunk with the given type and data (CRC bytes arbitrary). -/
def pngChunkBytes (ty : String) (data : List Nat) : List Nat :=
  [0, 0, 0, data.length] ++ su ty ++ data ++ [0, 0, 0, 0]

/-- A PNG whose only text chunk is a `zTXt` with key `k` and compression
method byte 1 (not deflate). -/
def pngC9 : List Nat :=
  [137, 80, 78, 71, 13, 10, 26, 10] ++
  pngChunkBytes "zTXt" (su "k" ++ [0, 1, 99]) ++ pngChunkBytes "IEND" []

/-- A JPEG-free byte buffer for the recovery-order counterexample: an ASCII
A1111 block followed by the UTF-16LE bytes of a different A1111 block. -/
def c3buf : List Nat :=
  su "Negative prompt: ascii\nSteps: 1\n" ++
  (su "Negative prompt: evil\nSteps: 99\n").flatMap (fun c => [c, 0])

/-- The block found by the targeted UTF-16 window scan on `c3buf`: sixteen
units decoded from the ASCII region (byte pairs read as UTF-16LE) followed by
the embedded UTF-16LE block up to its settings line. -/
def c3near : Str :=
  pairsLE (su "Negative prompt: ascii\nSteps: 1\n") ++ su "Negative prompt: evil\nSteps: 99"

/-- Idempotence counterexample input: twelve `U+0100` units (zero low byte)
followed by an A1111 block; the zero-low ratio is exactly 0.3, so the repair
heuristic leaves the input alone. -/
def c4src : Str := List.replicate 12 0x100 ++ su "Negative prompt: n\nSteps: 1\n"

/-- The locator's output on `c4src`: the settings line ends before the final
newline, so the block has 39 units and zero-low ratio 12/39 > 0.3. -/
def c4blk : Str := List.replicate 12 0x100 ++ su "Negative prompt: n\nSteps: 1"

/-- UserComment counterexample payload: the UTF-16BE encoding of ten CJK
`U+4E00` characters (no recognized 8-byte prefix; NUL bytes sit at odd
offsets, so the heuristic prefers UTF-16LE and never tries UTF-16BE). -/
def c7raw : List Nat := (List.replicate 10 0x4E00).flatMap (fun c => [c / 256, c % 256])

/-- The crafted JSON snippet of the C10 counterexample:
a JSON object whose `sd-metadata` is the number `5` and whose `parameters`
is the number `42`. -/
def c10json : Str := su "\x7b\"sd-metadata\":5,\"parameters\":42\x7d"

/-- A JPEG SOI marker followed by that JSON text: the format hint `jpg`
accepts it, the segment walk finds nothing, and recovery hands the number
`42` to `looksGarbled`, which throws. -/
def c10buf : List Nat := [0xFF, 0xD8] ++ c10json

/-- A `JSON.parse` instantiation that agrees with the real `JSON.parse` on
the one snippet the C10 counterexample reaches (and rejects everything
else, as `jsonNone` does). -/
def jsonC10 : Str → Option Json := fun s =>
  if s = c10json then
    some (.obj [(su "sd-metadata", .num 5), (su "parameters", .num 42)])
  else none

-- ===========================================================================
-- Theorems.
-- ===========================================================================

theorem parsePng_format (inflate : List Nat → Option (List Nat)) (jsonParse : Str → Option Json)
    (u8 : List Nat) : (parsePng inflate jsonParse u8).format = .png := by
  unfold parsePng; split <;> rfl

theorem parseJpeg_format (jsonParse : Str → Option Json) (sjisDec : List Nat → Str)
    (u8 : List Nat) (m : ImageMeta) (h : parseJpeg jsonParse sjisDec u8 = some m) :
    m.format = .jpeg := by
  unfold parseJpeg at h
  rcases Option.map_eq_some'.mp h with ⟨fr, _, hm⟩
  rw [← hm]

theorem parseWebp_format (jsonParse : Str → Option Json) (sjisDec : List Nat → Str)
    (u8 : List Nat) (m : ImageMeta) (h : parseWebp jsonParse sjisDec u8 = some m) :
    m.format = .webp := by
  unfold parseWebp at h
  rcases Option.map_eq_some'.mp h with ⟨fr, _, hm⟩
  rw [← hm]

theorem containsStr_singleton (s : Str) (u : Nat) : containsStr s [u] = true ↔ u ∈ s := by
  induction s with
  | nil => simp [containsStr, idxOf?, List.isPrefixOf]
  | cons c rest ih =>
    have ih2 : (idxOf? rest [u]).isSome = true ↔ u ∈ rest := ih
    by_cases h : u = c
    · subst h
      simp [containsStr, idxOf?, List.isPrefixOf]
    · have hpre : ([u] : Str).isPrefixOf (c :: rest) = false := by
        simp [List.isPrefixOf, h]
      simp [containsStr, idxOf?, hpre, h, ih2]

/-- C1: `parse_image_meta` lowercases the hint and dispatches (`png` to the PNG
parser, `jpg`/`jpeg` to JPEG, `webp` to WebP, everything else to
`(unknown, {}, {})`), and `format = unknown` occurs only with both maps empty
(for every result the dispatcher actually returns). -/
theorem claim_C1 (inflate : List Nat → Option (List Nat)) (jsonParse : Str → Option Json)
    (sjisDec : List Nat → Str) (u8 : List Nat) (ext : Str) :
    (toLowerJS ext = su "png" →
      parseImageMeta inflate jsonParse sjisDec u8 ext = some (parsePng inflate jsonParse u8)) ∧
    ((toLowerJS ext = su "jpg" ∨ toLowerJS ext = su "jpeg") →
      parseImageMeta inflate jsonParse sjisDec u8 ext = parseJpeg jsonParse sjisDec u8) ∧
    (toLowerJS ext = su "webp" →
      parseImageMeta inflate jsonParse sjisDec u8 ext = parseWebp jsonParse sjisDec u8) ∧
    (toLowerJS ext ≠ su "png" → toLowerJS ext ≠ su "jpg" → toLowerJS ext ≠ su "jpeg" →
      toLowerJS ext ≠ su "webp" →
      parseImageMeta inflate jsonParse sjisDec u8 ext = some ⟨.unknown, [], []⟩) ∧
    (∀ m, parseImageMeta inflate jsonParse sjisDec u8 ext = some m →
      m.format = .unknown → m.fields = [] ∧ m.raw = []) := by
  simp only [parseImageMeta]
  split_ifs with h1 h2 h3
  · refine ⟨fun _ => rfl, fun hj => ?_, fun hw => ?_, fun hn _ _ _ => absurd h1 hn,
      fun m hm hf => ?_⟩
    · rcases hj with hj | hj <;> exact absurd (h1.symm.trans hj) (by decide)
    · exact absurd (h1.symm.trans hw) (by decide)
    · rw [← Option.some.inj hm, parsePng_format] at hf
      exact absurd hf (by decide)
  · refine ⟨fun hp => ?_, fun _ => rfl, fun hw => ?_, fun _ hn hn2 _ => ?_,
      fun m hm hf => ?_⟩
    · exact absurd hp h1
    · rcases h2 with h2 | h2 <;> exact absurd (h2.symm.trans hw) (by decide)
    · rcases h2 with h2 | h2
      · exact absurd h2 hn
      · exact absurd h2 hn2
    · rw [parseJpeg_format jsonParse sjisDec u8 m hm] at hf
      exact absurd hf (by decide)
  · refine ⟨fun hp => absurd hp h1, fun hj => absurd hj h2, fun _ => rfl,
      fun _ _ _ hn => absurd h3 hn, fun m hm hf => ?_⟩
    rw [parseWebp_format jsonParse sjisDec u8 m hm] at hf
    exact absurd hf (by decide)
  · refine ⟨fun hp => absurd hp h1, fun hj => absurd hj h2, fun hw => absurd hw h3,
      fun _ _ _ _ => rfl, fun m hm _ => ?_⟩
    rw [← Option.some.inj hm]
    exact ⟨rfl, rfl⟩

/-- Witness for C1 at concrete inputs: hint `PNG` dispatches to the PNG parser,
hint `gif` yields the empty `unknown` record. -/
theorem claim_C1_witness :
    parseImageMeta inflNone jsonNone sjisModel [] (su "PNG") =
      some (parsePng inflNone jsonNone []) ∧
    parseImageMeta inflNone jsonNone sjisModel [] (su "gif") = some ⟨.unknown, [], []⟩ :=
  ⟨(claim_C1 inflNone jsonNone sjisModel [] (su "PNG")).1 (by decide),
   (claim_C1 inflNone jsonNone sjisModel [] (su "gif")).2.2.2.1
     (by decide) (by decide) (by decide) (by decide)⟩

set_option maxRecDepth 100000 in
/-- Counterexample to C10 as stated: with hint `jpg`, the buffer
`FF D8 ++ '{"sd-metadata":5,"parameters":42}'` makes the recovery JSON scan
return the *number* `42`, which `parse_image_meta` stores in
`raw["parameters"]`; `looksGarbled(42)` then throws an uncaught TypeError
(`.indexOf` is not a function), so the parser produces no format at all —
while the empty buffer returns format `jpeg`.  The format component therefore
does not depend only on the hint. -/
theorem claim_C10_counterexample :
    parseImageMeta inflNone jsonC10 sjisModel c10buf (su "jpg") = none ∧
    parseImageMeta inflNone jsonC10 sjisModel [] (su "jpg") =
      some { format := .jpeg, fields := [], raw := [] } := by
  refine ⟨by rfl, by rfl⟩

/-- C10 (amended): the `format` component depends only on the hint *whenever
the parser returns a result at all*: two buffers parsed under one hint that
both produce metadata produce the same format.  (Crafted buffers can make
the JPEG/WebP paths throw and return nothing; see the counterexample.) -/
theorem claim_C10 (inflate : List Nat → Option (List Nat)) (jsonParse : Str → Option Json)
    (sjisDec : List Nat → Str) (ext : Str) (u8a u8b : List Nat) (ma mb : ImageMeta)
    (ha : parseImageMeta inflate jsonParse sjisDec u8a ext = some ma)
    (hb : parseImageMeta inflate jsonParse sjisDec u8b ext = some mb) :
    ma.format = mb.format := by
  simp only [parseImageMeta] at ha hb
  split_ifs at ha hb with h1 h2 h3
  · rw [← Option.some.inj ha, ← Option.some.inj hb, parsePng_format, parsePng_format]
  · rw [parseJpeg_format jsonParse sjisDec u8a ma ha,
      parseJpeg_format jsonParse sjisDec u8b mb hb]
  · rw [parseWebp_format jsonParse sjisDec u8a ma ha,
      parseWebp_format jsonParse sjisDec u8b mb hb]
  · rw [← Option.some.inj ha, ← Option.some.inj hb]

/-- Witness for C10 at two concrete buffers under hint `jpg`. -/
theorem claim_C10_witness :
    ({ format := .jpeg, fields := [], raw := [] } : ImageMeta).format =
      ({ format := .jpeg, fields := [], raw := [] } : ImageMeta).format :=
  claim_C10 inflNone jsonNone sjisModel (su "jpg") [] [120]
    ⟨.jpeg, [], []⟩ ⟨.jpeg, [], []⟩ rfl rfl

/-- C5: the garbled-text predicate holds exactly when the text contains U+FFFD
or NUL, or more than half its code units exceed `0x7E` while fewer than 10%
are ASCII letters. -/
theorem claim_C5 (s : Str) :
    looksGarbled s = true ↔
      (0xFFFD ∈ s ∨ 0 ∈ s ∨
       (((s.countP (fun c => decide (0x7E < c)) : ℚ) / s.length > 1 / 2) ∧
        ((s.countP (fun c => decide ((65 ≤ c ∧ c ≤ 90) ∨ (97 ≤ c ∧ c ≤ 122))) : ℚ) <
          (s.length : ℚ) / 10))) := by
  by_cases hs : s = []
  · subst hs
    simp [looksGarbled]
  · have hlen : 0 < s.length := List.length_pos.mpr hs
    have hlenQ : (0 : ℚ) < s.length := by exact_mod_cast hlen
    rw [looksGarbled, if_neg hs]
    by_cases h1 : containsStr s [0xFFFD] = true
    · simp [h1, (containsStr_singleton s 0xFFFD).mp h1]
    · by_cases h2 : containsStr s [0] = true
      · simp [h1, h2, (containsStr_singleton s 0).mp h2]
      · have m1 : ¬ (0xFFFD ∈ s) := fun hm =>
          h1 ((containsStr_singleton s 0xFFFD).mpr hm)
        have m2 : ¬ ((0 : Nat) ∈ s) := fun hm =>
          h2 ((containsStr_singleton s 0).mpr hm)
        simp only [h1, h2, Bool.false_eq_true, if_false, m1, m2, false_or,
          decide_eq_true_eq]
        have hmax : max 1 s.length = s.length := Nat.max_eq_right hlen
        rw [hmax]
        have cast1 : ∀ a b : Nat, a < b → (a : ℚ) < b := fun a b hab => by exact_mod_cast hab
        have cast2 : ∀ a b : Nat, (a : ℚ) < b → a < b := fun a b hab => by exact_mod_cast hab
        constructor
        · rintro ⟨hh, ha⟩
          constructor
          · rw [gt_iff_lt, div_lt_div_iff₀ (by norm_num) hlenQ]
            have h3 := cast1 _ _ (by omega : s.length < 2 * s.countP (fun c => decide (0x7E < c)))
            push_cast at h3
            linarith
          · rw [lt_div_iff₀ (by norm_num : (0:ℚ) < 10)]
            have h3 := cast1 _ _ (by omega :
              10 * s.countP (fun c => decide ((65 ≤ c ∧ c ≤ 90) ∨ (97 ≤ c ∧ c ≤ 122))) < s.length)
            push_cast at h3
            linarith
        · rintro ⟨hh, ha⟩
          rw [gt_iff_lt, div_lt_div_iff₀ (by norm_num) hlenQ] at hh
          rw [lt_div_iff₀ (by norm_num : (0:ℚ) < 10)] at ha
          have hh2 := cast2 s.length (2 * s.countP (fun c => decide (0x7E < c))) (by push_cast; linarith)
          have ha2 := cast2 (10 * s.countP (fun c => decide ((65 ≤ c ∧ c ≤ 90) ∨ (97 ≤ c ∧ c ≤ 122))))
            s.length (by push_cast; linarith)
          omega

/-- C9 (amended): a `zTXt` chunk whose compression-method byte is nonzero, or
whose deflate stream fails to inflate, yields its key with an *empty* text
value (which `parsePng` then stores in `raw` whenever the key is nonempty);
only a chunk with no NUL separator yields an empty key and is kept out. -/
theorem claim_C9 (inflate : List Nat → Option (List Nat)) (data : List Nat) :
    (∀ z, idxOf? data [0] = some z →
      (data.getD (z + 1) 256 ≠ 0 ∨ inflate (data.drop (z + 2)) = none) →
      parse_zTXt inflate data = (latin1FromU8 (data.take z), [])) ∧
    (idxOf? data [0] = none → parse_zTXt inflate data = ([], [])) := by
  constructor
  · intro z hz hcond
    simp only [parse_zTXt, hz]
    by_cases hm : data.getD (z + 1) 256 = 0
    · rcases hcond with hc | hc
      · exact absurd hm hc
      · rw [if_neg (fun hne => hne hm), hc]
    · rw [if_pos hm]
  · intro hz
    simp [parse_zTXt, hz]

/-- Witness for C9: a keyed chunk with compression method 1 produces
`(key, "")`; a chunk with no NUL produces `("", "")`. -/
theorem claim_C9_witness :
    parse_zTXt inflNone (su "k" ++ [0, 1, 99]) =
      (latin1FromU8 ((su "k" ++ [0, 1, 99]).take 1), []) ∧
    parse_zTXt inflNone [5, 6] = ([], []) :=
  ⟨(claim_C9 inflNone (su "k" ++ [0, 1, 99])).1 1 (by decide) (Or.inl (by decide)),
   (claim_C9 inflNone [5, 6]).2 (by decide)⟩

set_option maxRecDepth 40000 in
/-- Counterexample to C9 as stated: a PNG containing a `zTXt` chunk with key
`k` and compression-method byte 1 does get an entry in `raw` — the pair
`("k", "")` — contradicting "no entry for that chunk appears in the raw map". -/
theorem claim_C9_counterexample :
    getk (parsePng inflNone jsonNone pngC9).raw (su "k") = some ([] : Str) ∧
    (su "k", ([] : Str)) ∈ (parsePng inflNone jsonNone pngC9).raw := by
  constructor <;> decide

set_option maxRecDepth 40000 in
/-- Counterexample to C2 as stated: (i) with `raw = {"parameters": ""}` the key
is present but no `parameters_raw` field is produced (JS truthiness skips the
empty string); (ii) a later line of the parameters text keyed
`parameters_raw:` overwrites the copy, so `fields["parameters_raw"]` is not
the raw text; (iii) a later line keyed `prompt:` overwrites the first-line
prompt. -/
theorem claim_C2_counterexample :
    (getk (normalizeKnownFields jsonNone [(su "parameters", [])]) (su "parameters_raw")).isNone
      = true ∧
    ((getk (normalizeKnownFields jsonNone [(su "parameters", su "A\nparameters_raw: B")])
        (su "parameters_raw")).bind fvStr? = some (su "B") ∧
      su "B" ≠ su "A\nparameters_raw: B") ∧
    ((getk (normalizeKnownFields jsonNone [(su "parameters", su "A\nprompt: B")])
        (su "prompt")).bind fvStr? = some (su "B") ∧
      su "B" ≠ (splitLines (su "A\nprompt: B")).headD []) := by
  refine ⟨by decide, ⟨by decide, by decide⟩, ⟨by decide, by decide⟩⟩

set_option maxRecDepth 100000 in
/-- Counterexample to C3 as stated: on `c3buf` the targeted UTF-16 window scan
(step 1 of the claimed order) succeeds with the block `c3near`, yet the
recovery result is the JSON-scan result `"Negative prompt: ascii"` — the code
runs the JSON scan first when no parameters were selected, not last.  (No
brace precedes the found key in this input, so `JSON.parse` is never invoked
and the result does not depend on the `jsonNone` instantiation.) -/
theorem claim_C3_counterexample :
    recoverParameters jsonNone sjisModel c3buf none =
      some (.str (su "Negative prompt: ascii")) ∧
    scanFileForSdText c3buf = some c3near ∧
    c3near ≠ su "Negative prompt: ascii" := by
  refine ⟨by rfl, by decide, by decide⟩

set_option maxRecDepth 40000 in
/-- Counterexample to C4 as stated: the locator returns `c4blk` on `c4src`,
but applied to `c4blk` itself it returns nothing — the truncated block has a
zero-low-byte ratio above 0.3, so the UTF-16 mis-decode repair scrambles it
and the `Negative prompt:` marker disappears. -/
theorem claim_C4_counterexample :
    extractA1111BlockFromText c4src = some c4blk ∧
    extractA1111BlockFromText c4blk = none := by
  refine ⟨by decide, by decide⟩

set_option maxRecDepth 40000 in
/-- Counterexample to C7 as stated: on the UTF-16BE payload `c7raw` (no
encoding prefix; NULs at odd offsets) the decoder never tries UTF-16BE and
returns the UTF-16LE reading `"NNNNNNNNNN"`, although the UTF-16BE candidate —
one of the claimed always-tried encodings, already NUL-free — scores strictly
higher. -/
theorem claim_C7_counterexample :
    decodeExifUserComment sjisModel c7raw = some (su "NNNNNNNNNN") ∧
    stripNuls (utf16beDecJS c7raw) = List.replicate 10 0x4E00 ∧
    flt (ucScore (su "NNNNNNNNNN")) (ucScore (List.replicate 10 0x4E00)) := by
  refine ⟨by decide, by decide, by decide⟩

set_option maxRecDepth 40000 in
/-- Counterexample to C8 as stated: with `prompt = " cat"` the produced first
line is `"cat"`, not the claimed right-trim-only `" cat"` — `String(prompt)`
is trimmed on both sides (and the whole text is trimmed again at the end). -/
theorem claim_C8_counterexample :
    forgeMetadataToParameters (.obj [(su "prompt", .str (su " cat")), (su "steps", .num 5)]) =
      some (su "cat\nNegative prompt:\nSteps: 5") ∧
    (splitLines (su "cat\nNegative prompt:\nSteps: 5")).headD [] ≠ su " cat" := by
  refine ⟨by decide, by decide⟩

theorem jsTruthy_map_str (x : Option Str) :
    jsTruthy (x.map Json.str) = truthyStr x := by
  cases x with
  | none => rfl
  | some s => rfl

theorem firstTruthyV_cons (x : Option Json) (xs : List (Option Json)) :
    firstTruthyV (x :: xs) = if jsTruthy x then x else firstTruthyV xs := by
  unfold firstTruthyV
  rw [List.findSome?_cons]
  by_cases h : jsTruthy x = true
  · rcases x with _ | v
    · simp [jsTruthy] at h
    · simp [h]
  · rw [Bool.not_eq_true] at h
    simp [h]

/-- C3 (amended): when no parameters were selected the recovery engine runs,
in order, (1) the JSON scan of the whole file, (2) the targeted UTF-16 window
scan, (3) the whole-file UTF-16 re-decode, (4) the whole-file Shift_JIS
re-decode, and the first JS-truthy step *value* wins — the JSON scan's value
need not be a string; when the selected text looks garbled the JSON scan is
skipped and steps (2)-(4) run in that order; when the selected text is truthy
and not garbled, no recovery happens. -/
theorem claim_C3 (jsonParse : Str → Option Json) (sjisDec : List Nat → Str)
    (u8 : List Nat) (t : Str) :
    recoverParameters jsonParse sjisDec u8 none =
      firstTruthyV [scanWholeFileForMeta jsonParse u8,
        (scanFileForSdText u8).map .str,
        (scanWholeFileForUtf16A1111 u8).map .str,
        (scanWholeFileForSjisA1111 sjisDec u8).map .str] ∧
    (looksGarbled t = true →
      recoverParameters jsonParse sjisDec u8 (some t) =
        firstTruthyV [(scanFileForSdText u8).map .str,
          (scanWholeFileForUtf16A1111 u8).map .str,
          (scanWholeFileForSjisA1111 sjisDec u8).map .str]) ∧
    (looksGarbled t = false → t ≠ [] →
      recoverParameters jsonParse sjisDec u8 (some t) = none) := by
  refine ⟨?_, ?_, ?_⟩
  · simp only [recoverParameters]
    rw [if_pos (by simp [truthyStr])]
    rw [firstTruthyV_cons, firstTruthyV_cons, firstTruthyV_cons, firstTruthyV_cons]
    simp only [firstTruthyV, List.findSome?_nil, jsTruthy_map_str]
  · intro hg
    have ht : t ≠ [] := by
      intro h0
      rw [h0] at hg
      exact absurd hg (by decide)
    simp only [recoverParameters]
    rw [if_neg (by simp [truthyStr, ht])]
    rw [if_neg (by simp [hg])]
    rw [firstTruthyV_cons, firstTruthyV_cons, firstTruthyV_cons]
    simp only [firstTruthyV, List.findSome?_nil, jsTruthy_map_str]
  · intro hg ht
    simp only [recoverParameters]
    rw [if_neg (by simp [truthyStr, ht])]
    rw [if_pos (by simp [hg])]

/-- Witness for C3 at a concrete garbled text and empty buffer. -/
theorem claim_C3_witness :
    recoverParameters jsonNone sjisModel [] (some [0xFFFD]) =
      firstTruthyV [(scanFileForSdText []).map .str,
        (scanWholeFileForUtf16A1111 []).map .str,
        (scanWholeFileForSjisA1111 sjisModel []).map .str] :=
  (claim_C3 jsonNone sjisModel [] [0xFFFD]).2.1 (by decide)

theorem foldl_append_eq {α β : Type} (f : α → List β) (l : List α) (init : List β) :
    l.foldl (fun b o => b ++ f o) init = init ++ l.flatMap f := by
  induction l generalizing init with
  | nil => simp
  | cons a rest ih => simp [ih, List.append_assoc]

theorem keys_lookup_lengths (chunks : List (Nat × List Nat))
    (hnd : (chunks.map Prod.fst).Nodup) :
    ((chunks.map Prod.fst).map (fun o => ((getk chunks o).getD []).length)).sum =
      (chunks.map (fun c => c.2.length)).sum := by
  induction chunks with
  | nil => simp
  | cons c rest ih =>
    obtain ⟨k, v⟩ := c
    rw [List.map_cons] at hnd
    have hnd2 := List.nodup_cons.mp hnd
    have h2 : (rest.map Prod.fst).map (fun o => ((getk ((k, v) :: rest) o).getD []).length) =
        (rest.map Prod.fst).map (fun o => ((getk rest o).getD []).length) := by
      apply List.map_congr_left
      intro o ho
      have hne : k ≠ o := fun he => hnd2.1 (he ▸ ho)
      simp [getk, hne]
    simp only [List.map_cons, List.sum_cons]
    rw [h2, ih hnd2.2]
    simp [getk]

/-- C6: for each GUID the Extended XMP chunks are concatenated in ascending
declared-offset order, the assembled buffer's length is the sum of the chunk
lengths, decoding sees only its first `min(total, assembled length)` bytes,
and the reconstructed XMP text is the concatenation of the standard fragments
followed by the per-GUID assemblies. -/
theorem claim_C6 (total : Nat) (chunks : List (Nat × List Nat))
    (hnd : (chunks.map Prod.fst).Nodup) (main : List Str)
    (ext : List (Str × (Nat × List (Nat × List Nat)))) (hne : main ≠ [] ∨ ext ≠ []) :
    List.Sorted (· ≤ ·) ((chunks.map Prod.fst).mergeSort (fun a b => decide (a ≤ b))) ∧
    (((chunks.map Prod.fst).mergeSort (fun a b => decide (a ≤ b))).flatMap
        (fun o => ((getk chunks o).getD []))).length =
      (chunks.map (fun c => c.2.length)).sum ∧
    assembleExtChunk (total, chunks) =
      (((chunks.map Prod.fst).mergeSort (fun a b => decide (a ≤ b))).flatMap
        (fun o => ((getk chunks o).getD []))).take
        (min total (((chunks.map Prod.fst).mergeSort (fun a b => decide (a ≤ b))).flatMap
          (fun o => ((getk chunks o).getD []))).length) ∧
    reconstructXmp main ext =
      some (joinStr [] main ++ ext.flatMap (fun g => utf8DecJS (assembleExtChunk g.2))) := by
  refine ⟨?_, ?_, ?_, ?_⟩
  · have hp := @List.sorted_mergeSort Nat (fun a b : Nat => decide (a ≤ b))
      (fun a b c hab hbc => by
        simp only [decide_eq_true_eq] at *
        omega)
      (fun a b => by
        simp only [Bool.or_eq_true, decide_eq_true_eq]
        omega)
      (chunks.map Prod.fst)
    exact hp.imp (by simp)
  · rw [List.length_flatMap]
    have hperm := (List.mergeSort_perm (chunks.map Prod.fst) (fun a b => decide (a ≤ b))).map
      (fun o => ((getk chunks o).getD []).length)
    calc ((((chunks.map Prod.fst).mergeSort (fun a b => decide (a ≤ b))).map
            (List.length ∘ fun o => ((getk chunks o).getD []))).sum)
        = (((chunks.map Prod.fst)).map (fun o => ((getk chunks o).getD []).length)).sum :=
          hperm.sum_eq
      _ = (chunks.map (fun c => c.2.length)).sum := keys_lookup_lengths chunks hnd
  · simp only [assembleExtChunk]
    rw [foldl_append_eq]
    simp
  · unfold reconstructXmp
    rw [if_pos hne, foldl_append_eq]
    simp

/-- Witness for C6 at a two-chunk assembly with out-of-order offsets. -/
theorem claim_C6_witness :
    List.Sorted (· ≤ ·) ((([(7, [1, 2, 3]), (0, [4, 5])] :
        List (Nat × List Nat)).map Prod.fst).mergeSort (fun a b => decide (a ≤ b))) ∧
    (((([(7, [1, 2, 3]), (0, [4, 5])] : List (Nat × List Nat)).map
        Prod.fst).mergeSort (fun a b => decide (a ≤ b))).flatMap
        (fun o => ((getk [(7, [1, 2, 3]), (0, [4, 5])] o).getD []))).length =
      (([(7, [1, 2, 3]), (0, [4, 5])] : List (Nat × List Nat)).map
        (fun c => c.2.length)).sum := by
  have h := claim_C6 4 [(7, [1, 2, 3]), (0, [4, 5])] (by decide) [su "x"] [] (Or.inl (by decide))
  exact ⟨h.1, h.2.1⟩

theorem splitLines_cons_general (c : Nat) (rest : Str) (h10 : c ≠ 10) (h13 : c ≠ 13) :
    splitLines (c :: rest) =
      match splitLines rest with
      | l :: ls => (c :: l) :: ls
      | [] => [[c]] := by
  match rest with
  | [] =>
    show (if c = 10 then [[], []] else [[c]]) = _
    rw [if_neg h10]
    rfl
  | d :: rest2 =>
    show (if c = 10 then _ else if c = 13 ∧ d = 10 then _ else _) = _
    rw [if_neg h10, if_neg (fun hc => h13 hc.1)]

theorem splitLines_no_term (x : Str) (h : ∀ c ∈ x, c ≠ 10 ∧ c ≠ 13) : splitLines x = [x] := by
  induction x with
  | nil => rfl
  | cons c rest ih =>
    have hc := h c (List.mem_cons_self c rest)
    rw [splitLines_cons_general c rest hc.1 hc.2,
      ih (fun d hd => h d (List.mem_cons_of_mem c hd))]

theorem splitLines_append_nl (x y : Str) (h : ∀ c ∈ x, c ≠ 10 ∧ c ≠ 13) :
    splitLines (x ++ 10 :: y) = x :: splitLines y := by
  induction x with
  | nil =>
    show splitLines (10 :: y) = [] :: splitLines y
    match y with
    | [] => rfl
    | e :: y2 =>
      show (if (10 : Nat) = 10 then [] :: splitLines (e :: y2) else _) = _
      rw [if_pos rfl]
  | cons c rest ih =>
    have hc := h c (List.mem_cons_self c rest)
    rw [List.cons_append, splitLines_cons_general c (rest ++ 10 :: y) hc.1 hc.2,
      ih (fun d hd => h d (List.mem_cons_of_mem c hd))]

theorem forgeLine2_starts (md : Json) :
    strStarts (forgeLine2 md) (su "Negative prompt:") = true := by
  unfold forgeLine2
  split_ifs
  · rw [strStarts, List.isPrefixOf_iff_prefix]
    exact (show su "Negative prompt:" <+: su "Negative prompt: " by decide).trans
      (List.prefix_append _ _)
  · decide

/-- C8 (amended): for a truthy JSON object, the converter emits line 1 as the
prompt value trimmed on *both* sides, line 2 always beginning with
`Negative prompt:` (even for an empty negative value), and — when any setting
is present — line 3 as the comma-joined settings in the order Steps, Sampler,
CFG scale, Seed, Size, Model (the order of `forgeTail`); the whole text is
trimmed once more at the end (the hypotheses make that final trim and the
line decomposition well defined). -/
theorem claim_C8 (md : Json) (hmd : (jsTruthyV md && isObjTypeJS md) = true)
    (hnl1 : ∀ c ∈ trimJS (jsToString (forgePromptVal md)), c ≠ 10 ∧ c ≠ 13)
    (hnl2 : ∀ c ∈ forgeLine2 md, c ≠ 10 ∧ c ≠ 13)
    (hnl3 : ∀ c ∈ joinStr (su ", ") (forgeTail md), c ≠ 10 ∧ c ≠ 13)
    (htrim : trimJS (joinStr [10] ([trimJS (jsToString (forgePromptVal md)), forgeLine2 md] ++
        (if forgeTail md ≠ [] then [joinStr (su ", ") (forgeTail md)] else []))) =
      joinStr [10] ([trimJS (jsToString (forgePromptVal md)), forgeLine2 md] ++
        (if forgeTail md ≠ [] then [joinStr (su ", ") (forgeTail md)] else []))) :
    ∃ T, forgeMetadataToParameters md = some T ∧
      splitLines T = [trimJS (jsToString (forgePromptVal md)), forgeLine2 md] ++
        (if forgeTail md ≠ [] then [joinStr (su ", ") (forgeTail md)] else []) ∧
      strStarts (forgeLine2 md) (su "Negative prompt:") = true := by
  refine ⟨joinStr [10] ([trimJS (jsToString (forgePromptVal md)), forgeLine2 md] ++
    (if forgeTail md ≠ [] then [joinStr (su ", ") (forgeTail md)] else [])), ?_, ?_,
    forgeLine2_starts md⟩
  · simp only [forgeMetadataToParameters]
    rw [if_neg (by simp [hmd])]
    rw [htrim]
  · by_cases ht : forgeTail md = []
    · rw [if_neg (fun hne => hne ht), List.append_nil]
      have hJ : joinStr [10] [trimJS (jsToString (forgePromptVal md)), forgeLine2 md] =
          trimJS (jsToString (forgePromptVal md)) ++ 10 :: forgeLine2 md := by
        simp [joinStr, List.intercalate]
      rw [hJ, splitLines_append_nl _ _ hnl1, splitLines_no_term _ hnl2]
    · rw [if_pos ht]
      have hJ : [trimJS (jsToString (forgePromptVal md)), forgeLine2 md] ++
          [joinStr (su ", ") (forgeTail md)] =
          [trimJS (jsToString (forgePromptVal md)), forgeLine2 md,
            joinStr (su ", ") (forgeTail md)] := rfl
      rw [hJ]
      have hJ2 : joinStr [10] [trimJS (jsToString (forgePromptVal md)), forgeLine2 md,
          joinStr (su ", ") (forgeTail md)] =
          trimJS (jsToString (forgePromptVal md)) ++ 10 ::
            (forgeLine2 md ++ 10 :: joinStr (su ", ") (forgeTail md)) := by
        simp [joinStr, List.intercalate]
      rw [hJ2, splitLines_append_nl _ _ hnl1, splitLines_append_nl _ _ hnl2,
        splitLines_no_term _ hnl3]

/-- Witness for C8 at `{"prompt": "cat", "steps": 5}`. -/
theorem claim_C8_witness :
    ∃ T, forgeMetadataToParameters
        (.obj [(su "prompt", .str (su "cat")), (su "steps", .num 5)]) = some T ∧
      splitLines T = [trimJS (jsToString (forgePromptVal
          (.obj [(su "prompt", .str (su "cat")), (su "steps", .num 5)]))),
        forgeLine2 (.obj [(su "prompt", .str (su "cat")), (su "steps", .num 5)])] ++
        (if forgeTail (.obj [(su "prompt", .str (su "cat")), (su "steps", .num 5)]) ≠ [] then
          [joinStr (su ", ") (forgeTail (.obj [(su "prompt", .str (su "cat")), (su "steps", .num 5)]))]
         else []) ∧
      strStarts (forgeLine2 (.obj [(su "prompt", .str (su "cat")), (su "steps", .num 5)]))
        (su "Negative prompt:") = true :=
  claim_C8 (.obj [(su "prompt", .str (su "cat")), (su "steps", .num 5)])
    (by decide) (by decide) (by decide) (by decide) (by decide)

-- ---------------------------------------------------------------------------
-- Assoc-map lemmas for the normalizer (C2).
-- ---------------------------------------------------------------------------

/-- Reading back the key just written. -/
theorem getk_setk_self {κ α : Type} [DecidableEq κ] (m : List (κ × α)) (k : κ) (v : α) :
    getk (setk m k v) k = some v := by
  induction m with
  | nil => simp [setk, getk]
  | cons kv rest ih =>
    obtain ⟨k', v'⟩ := kv
    simp only [setk]
    by_cases h : k' = k
    · rw [if_pos h]; simp [getk]
    · rw [if_neg h]; simp only [getk, if_neg h]; exact ih

/-- Writing one key leaves every other key unchanged. -/
theorem getk_setk_ne {κ α : Type} [DecidableEq κ] (m : List (κ × α)) (k kq : κ) (v : α)
    (h : k ≠ kq) : getk (setk m k v) kq = getk m kq := by
  induction m with
  | nil => simp [setk, getk, h]
  | cons kv rest ih =>
    obtain ⟨k', v'⟩ := kv
    simp only [setk]
    by_cases h' : k' = k
    · subst h'
      rw [if_pos rfl]
      simp only [getk, if_neg h]
    · rw [if_neg h']
      simp only [getk]
      by_cases h2 : k' = kq
      · rw [if_pos h2, if_pos h2]
      · rw [if_neg h2, if_neg h2]; exact ih

/-- Every entry of `setk m k v` is the new pair or an old entry. -/
theorem setk_subset {κ α : Type} [DecidableEq κ] (m : List (κ × α)) (k : κ) (v : α) :
    ∀ kv ∈ setk m k v, kv = (k, v) ∨ kv ∈ m := by
  induction m with
  | nil =>
    intro kv hkv
    simp only [setk] at hkv
    left
    exact List.mem_singleton.mp hkv
  | cons hd rest ih =>
    obtain ⟨k', v'⟩ := hd
    intro kv hkv
    simp only [setk] at hkv
    by_cases h : k' = k
    · rw [if_pos h] at hkv
      rcases List.mem_cons.mp hkv with h1 | h1
      · left; exact h1
      · right; exact List.mem_cons_of_mem _ h1
    · rw [if_neg h] at hkv
      rcases List.mem_cons.mp hkv with h1 | h1
      · right; exact List.mem_cons.mpr (Or.inl h1)
      · rcases ih kv h1 with h2 | h2
        · left; exact h2
        · right; exact List.mem_cons_of_mem _ h2

/-- `setk` with a string value preserves all-values-are-strings. -/
theorem allS_setk (m : List (Str × FieldVal)) (k : Str) (s0 : Str)
    (hm : ∀ kv ∈ m, ∃ s, kv.2 = FieldVal.s s) :
    ∀ kv ∈ setk m k (FieldVal.s s0), ∃ s, kv.2 = FieldVal.s s := by
  intro kv hkv
  rcases setk_subset m k (FieldVal.s s0) kv hkv with h | h
  · exact ⟨s0, by rw [h]⟩
  · exact hm kv h

/-- A fold whose every step fixes the value at `kq` fixes it overall. -/
theorem getk_foldl_fix {β : Type} (f : List (Str × FieldVal) → β → List (Str × FieldVal))
    (kq : Str) :
    ∀ (l : List β) (o : List (Str × FieldVal)),
      (∀ o' b, b ∈ l → getk (f o' b) kq = getk o' kq) →
      getk (l.foldl f o) kq = getk o kq := by
  intro l
  induction l with
  | nil => intro o _; rfl
  | cons b bs ih =>
    intro o hf
    rw [List.foldl_cons,
      ih (f o b) (fun o' b' hb' => hf o' b' (List.mem_cons_of_mem _ hb'))]
    exact hf o b (List.mem_cons_self _ _)

/-- A fold whose step preserves all-values-are-strings preserves it overall. -/
theorem allS_foldl {β : Type} (f : List (Str × FieldVal) → β → List (Str × FieldVal))
    (hf : ∀ o' b, (∀ kv ∈ o', ∃ s, kv.2 = FieldVal.s s) →
      ∀ kv ∈ f o' b, ∃ s, kv.2 = FieldVal.s s) :
    ∀ (l : List β) (o : List (Str × FieldVal)),
      (∀ kv ∈ o, ∃ s, kv.2 = FieldVal.s s) →
      ∀ kv ∈ l.foldl f o, ∃ s, kv.2 = FieldVal.s s := by
  intro l
  induction l with
  | nil => intro o ho; exact ho
  | cons b bs ih => intro o ho; exact ih (f o b) (hf o b ho)

/-- On an all-strings map, no key reads back a JSON value. -/
theorem fvJson_getk_allS :
    ∀ (m : List (Str × FieldVal)), (∀ kv ∈ m, ∃ s, kv.2 = FieldVal.s s) →
      ∀ k, fvJson? (getk m k) = none := by
  intro m
  induction m with
  | nil => intro _ _; rfl
  | cons hd rest ih =>
    intro h k
    obtain ⟨k', v'⟩ := hd
    simp only [getk]
    by_cases hk : k' = k
    · rw [if_pos hk]
      obtain ⟨s, hs⟩ := h (k', v') (List.mem_cons_self _ _)
      have hv : v' = FieldVal.s s := hs
      rw [hv]
      rfl
    · rw [if_neg hk]
      exact ih (fun kv hkv => h kv (List.mem_cons_of_mem _ hkv)) k

/-- On an all-strings map, the first ComfyUI candidate source is empty. -/
theorem comfyInit1_allS (parsed : List (Str × FieldVal))
    (h : ∀ kv ∈ parsed, ∃ s, kv.2 = FieldVal.s s) : comfyInit1 parsed = [] := by
  unfold comfyInit1
  rw [fvJson_getk_allS parsed h (su "prompt_json")]
  split <;> rfl

/-- On an all-strings map, the second ComfyUI candidate source is empty. -/
theorem comfyInit2_allS (parsed : List (Str × FieldVal))
    (h : ∀ kv ∈ parsed, ∃ s, kv.2 = FieldVal.s s) : comfyInit2 parsed = [] := by
  unfold comfyInit2
  rw [fvJson_getk_allS parsed h (su "workflow_json")]
  exact comfyInit1_allS parsed h

/-- A string-valued entry contributes no ComfyUI candidate. -/
theorem comfyEntryStep_allS (acc : List Json) (kv : Str × FieldVal)
    (h : ∃ s, kv.2 = FieldVal.s s) : comfyEntryStep acc kv = acc := by
  obtain ⟨s, hs⟩ := h
  unfold comfyEntryStep
  rw [hs]
  split <;> rfl

/-- On an all-strings map, `extractComfy` finds no candidate at all. -/
theorem extractComfy_allS (parsed : List (Str × FieldVal))
    (h : ∀ kv ∈ parsed, ∃ s, kv.2 = FieldVal.s s) : extractComfy parsed = none := by
  have hfold : ∀ (l : List (Str × FieldVal)),
      (∀ kv ∈ l, ∃ s, kv.2 = FieldVal.s s) →
      ∀ acc, l.foldl comfyEntryStep acc = acc := by
    intro l
    induction l with
    | nil => intro _ acc; rfl
    | cons b bs ih =>
      intro hl acc
      rw [List.foldl_cons, comfyEntryStep_allS acc b (hl b (List.mem_cons_self _ _))]
      exact ih (fun kv hkv => hl kv (List.mem_cons_of_mem _ hkv)) acc
  unfold extractComfy comfyCandidates
  rw [comfyInit2_allS parsed h, hfold parsed h []]
  rfl

-- ---------------------------------------------------------------------------
-- Normalizer stage lemmas (C2).
-- ---------------------------------------------------------------------------

/-- A line whose trimmed key differs from `kq` does not touch `kq`. -/
theorem getk_nkLineStep (o : List (Str × FieldVal)) (ln : Str) (kq : Str)
    (h : ∀ kv, lineKV ln = some kv → trimJS kv.1 ≠ kq) :
    getk (nkLineStep o ln) kq = getk o kq := by
  unfold nkLineStep
  cases hkv : lineKV ln with
  | none => rfl
  | some kv => exact getk_setk_ne o (trimJS kv.1) kq _ (h kv hkv)

/-- A recognized-keys step whose collapsed key differs from `kq` does not
touch `kq`. -/
theorem getk_nkRecogStep (raw : List (Str × Str)) (o : List (Str × FieldVal)) (k kq : Str)
    (h : collapseWs k ≠ kq) :
    getk (nkRecogStep raw o k) kq = getk o kq := by
  unfold nkRecogStep
  cases hg : getk raw k with
  | none => rfl
  | some v =>
    show getk (if v ≠ [] then setk o (collapseWs k) (FieldVal.s v) else o) kq = getk o kq
    by_cases hv : v = []
    · rw [if_neg (fun hne => hne hv)]
    · rw [if_pos hv]
      exact getk_setk_ne o (collapseWs k) kq _ h

/-- The recognized-keys step at key `prompt` is the identity when
`raw["prompt"]` is not truthy. -/
theorem nkRecogStep_prompt_id (raw : List (Str × Str)) (o : List (Str × FieldVal))
    (h4 : getk raw (su "prompt") = none ∨ getk raw (su "prompt") = some []) :
    nkRecogStep raw o (su "prompt") = o := by
  unfold nkRecogStep
  rcases h4 with h4 | h4
  · rw [h4]
  · rw [h4]
    show (if ([] : Str) ≠ [] then setk o (collapseWs (su "prompt")) (FieldVal.s []) else o) = o
    rw [if_neg (fun hne => hne rfl)]

/-- The per-line step only writes string values. -/
theorem allS_nkLineStep (o : List (Str × FieldVal)) (ln : Str)
    (ho : ∀ kv ∈ o, ∃ s, kv.2 = FieldVal.s s) :
    ∀ kv ∈ nkLineStep o ln, ∃ s, kv.2 = FieldVal.s s := by
  unfold nkLineStep
  cases lineKV ln with
  | none => exact ho
  | some kv => exact allS_setk o (trimJS kv.1) (trimJS kv.2) ho

/-- The recognized-keys step only writes string values. -/
theorem allS_nkRecogStep (raw : List (Str × Str)) (o : List (Str × FieldVal)) (k : Str)
    (ho : ∀ kv ∈ o, ∃ s, kv.2 = FieldVal.s s) :
    ∀ kv ∈ nkRecogStep raw o k, ∃ s, kv.2 = FieldVal.s s := by
  unfold nkRecogStep
  cases getk raw k with
  | none => exact ho
  | some v =>
    show ∀ kv ∈ (if v ≠ [] then setk o (collapseWs k) (FieldVal.s v) else o),
      ∃ s, kv.2 = FieldVal.s s
    intro kv hkv
    by_cases hv : v = []
    · rw [if_neg (fun hne => hne hv)] at hkv
      exact ho kv hkv
    · rw [if_pos hv] at hkv
      exact allS_setk o (collapseWs k) v ho kv hkv

/-- The A1111 stage produces an all-strings map. -/
theorem nkA1111_allS (raw : List (Str × Str)) (txt : Str) :
    ∀ kv ∈ nkA1111 raw txt, ∃ s, kv.2 = FieldVal.s s := by
  simp only [nkA1111]
  apply allS_foldl (nkRecogStep raw) (fun o' b h => allS_nkRecogStep raw o' b h)
  apply allS_foldl nkLineStep (fun o' b h => allS_nkLineStep o' b h)
  apply allS_setk
  apply allS_setk
  intro kv hkv
  exact absurd hkv (List.not_mem_nil kv)

/-- A JSON-sweep step at a non-JSON-looking value is the identity. -/
theorem nkJsonStep_id (jsonParse : Str → Option Json) (o : List (Str × FieldVal))
    (kv : Str × Str) (h : jsonLike (trimJS kv.2) = false) :
    nkJsonStep jsonParse o kv = o := by
  simp only [nkJsonStep]
  simp [h]

/-- The JSON sweep is the identity when no raw value looks like JSON. -/
theorem jsonFold_id (jsonParse : Str → Option Json) :
    ∀ (l : List (Str × Str)) (o : List (Str × FieldVal)),
      (∀ kv ∈ l, jsonLike (trimJS kv.2) = false) →
      l.foldl (nkJsonStep jsonParse) o = o := by
  intro l
  induction l with
  | nil => intro o _; rfl
  | cons b bs ih =>
    intro o h
    rw [List.foldl_cons, nkJsonStep_id jsonParse o b (h b (List.mem_cons_self _ _))]
    exact ih o (fun kv hkv => h kv (List.mem_cons_of_mem _ hkv))

/-- A truthy `raw["parameters"]` selects the A1111 stage. -/
theorem nkOut1_eq (raw : List (Str × Str)) (txt : Str)
    (h1 : getk raw (su "parameters") = some txt) (h2 : txt ≠ []) :
    nkOut1 raw = nkA1111 raw txt := by
  unfold nkOut1
  rw [h1]
  exact if_pos h2

/-- The A1111 stage stores `parameters_raw` verbatim (no later line or
recognized key rewrites it, under the given hypotheses). -/
theorem getk_nkA1111_praw (raw : List (Str × Str)) (txt : Str)
    (h3 : ∀ ln ∈ (splitLines txt).drop 1, ∀ kv, lineKV ln = some kv →
      trimJS kv.1 ≠ su "parameters_raw")
    (h4 : getk raw (su "prompt") = none ∨ getk raw (su "prompt") = some []) :
    getk (nkA1111 raw txt) (su "parameters_raw") = some (FieldVal.s txt) := by
  simp only [nkA1111]
  rw [List.foldl_cons, List.foldl_cons, List.foldl_cons, List.foldl_cons, List.foldl_nil]
  rw [getk_nkRecogStep raw _ (su "Negative prompt") _ (by decide)]
  rw [getk_nkRecogStep raw _ (su "Prompt") _ (by decide)]
  rw [getk_nkRecogStep raw _ (su "negative_prompt") _ (by decide)]
  rw [nkRecogStep_prompt_id raw _ h4]
  rw [getk_foldl_fix nkLineStep (su "parameters_raw") ((splitLines txt).drop 1) _
    (fun o' ln hln => getk_nkLineStep o' ln _ (fun kv hkv => h3 ln hln kv hkv))]
  rw [getk_setk_ne _ (su "prompt") (su "parameters_raw") _ (by decide)]
  exact getk_setk_self _ _ _

/-- The A1111 stage stores `prompt` as the first split line (under the same
no-rewrite hypotheses). -/
theorem getk_nkA1111_prompt (raw : List (Str × Str)) (txt : Str)
    (h3 : ∀ ln ∈ (splitLines txt).drop 1, ∀ kv, lineKV ln = some kv →
      trimJS kv.1 ≠ su "prompt")
    (h4 : getk raw (su "prompt") = none ∨ getk raw (su "prompt") = some []) :
    getk (nkA1111 raw txt) (su "prompt") = some (FieldVal.s ((splitLines txt).headD [])) := by
  simp only [nkA1111]
  rw [List.foldl_cons, List.foldl_cons, List.foldl_cons, List.foldl_cons, List.foldl_nil]
  rw [getk_nkRecogStep raw _ (su "Negative prompt") _ (by decide)]
  rw [getk_nkRecogStep raw _ (su "Prompt") _ (by decide)]
  rw [getk_nkRecogStep raw _ (su "negative_prompt") _ (by decide)]
  rw [nkRecogStep_prompt_id raw _ h4]
  rw [getk_foldl_fix nkLineStep (su "prompt") ((splitLines txt).drop 1) _
    (fun o' ln hln => getk_nkLineStep o' ln _ (fun kv hkv => h3 ln hln kv hkv))]
  exact getk_setk_self _ _ _

/-- C2 (amended): the guard is truthiness, not key presence — when
`raw["parameters"]` is *nonempty*, and no later stage rewrites the entries
(no `key: value` line of the block trims to `parameters_raw` or `prompt`,
`raw["prompt"]` is not truthy, and no raw value looks like JSON), the
normalizer stores `fields["parameters_raw"]` equal to `raw["parameters"]`
character for character and `fields["prompt"]` equal to its first line
(split on CR-LF or LF). -/
theorem claim_C2 (jsonParse : Str → Option Json) (raw : List (Str × Str)) (txt : Str)
    (h1 : getk raw (su "parameters") = some txt)
    (h2 : txt ≠ [])
    (h3 : ∀ ln ∈ (splitLines txt).drop 1, ∀ kv, lineKV ln = some kv →
        trimJS kv.1 ≠ su "parameters_raw" ∧ trimJS kv.1 ≠ su "prompt")
    (h4 : getk raw (su "prompt") = none ∨ getk raw (su "prompt") = some [])
    (h5 : ∀ kv ∈ raw, jsonLike (trimJS kv.2) = false) :
    getk (normalizeKnownFields jsonParse raw) (su "parameters_raw") =
      some (FieldVal.s txt) ∧
    getk (normalizeKnownFields jsonParse raw) (su "prompt") =
      some (FieldVal.s ((splitLines txt).headD [])) := by
  have hmain : normalizeKnownFields jsonParse raw = nkA1111 raw txt := by
    simp only [normalizeKnownFields]
    rw [nkOut1_eq raw txt h1 h2]
    rw [jsonFold_id jsonParse raw (nkA1111 raw txt) h5]
    rw [extractComfy_allS (nkA1111 raw txt) (nkA1111_allS raw txt)]
  rw [hmain]
  exact ⟨getk_nkA1111_praw raw txt (fun ln hln kv hkv => (h3 ln hln kv hkv).1) h4,
    getk_nkA1111_prompt raw txt (fun ln hln kv hkv => (h3 ln hln kv hkv).2) h4⟩

/-- Witness for C2 at `raw = [("parameters", "hello")]`. -/
theorem claim_C2_witness :
    getk (normalizeKnownFields jsonNone [(su "parameters", su "hello")])
        (su "parameters_raw") = some (FieldVal.s (su "hello")) ∧
    getk (normalizeKnownFields jsonNone [(su "parameters", su "hello")])
        (su "prompt") =
      some (FieldVal.s ((splitLines (su "hello")).headD [])) :=
  claim_C2 jsonNone [(su "parameters", su "hello")] (su "hello")
    (by decide) (by decide)
    (by
      intro ln hln kv hkv
      rw [show (splitLines (su "hello")).drop 1 = [] from rfl] at hln
      exact absurd hln (List.not_mem_nil ln))
    (Or.inl (by decide)) (by decide)

-- ---------------------------------------------------------------------------
-- Frac order lemmas and the UserComment fold (C7).
-- ---------------------------------------------------------------------------

/-- Reflexivity of the cross-multiplication order. -/
theorem fle_refl (a : Frac) : fle a a := le_refl _

/-- A failed strict comparison flips weakly. -/
theorem fle_of_not_flt {a b : Frac} (h : ¬ flt a b) : fle b a := Int.not_lt.mp h

/-- Strict implies weak. -/
theorem fle_of_flt {a b : Frac} (h : flt a b) : fle a b := le_of_lt h

/-- Transitivity through a positive middle denominator. -/
theorem fle_trans {a b c : Frac} (hb : 0 < b.den) (h1 : fle a b) (h2 : fle b c) :
    fle a c := by
  unfold fle at h1 h2 ⊢
  have hcd : (0:Int) ≤ (c.den : Int) := Int.ofNat_nonneg _
  have had : (0:Int) ≤ (a.den : Int) := Int.ofNat_nonneg _
  have hbd : (0:Int) < (b.den : Int) := by exact_mod_cast hb
  have t1 : a.num * b.den * c.den ≤ b.num * a.den * c.den :=
    mul_le_mul_of_nonneg_right h1 hcd
  have t2 : b.num * c.den * a.den ≤ c.num * b.den * a.den :=
    mul_le_mul_of_nonneg_right h2 had
  have t3 : a.num * c.den * b.den ≤ c.num * a.den * b.den := by nlinarith [t1, t2]
  exact le_of_mul_le_mul_right t3 hbd

/-- The SD-text score has a positive denominator. -/
theorem scoreSd_den_pos (s : Str) : 0 < (scoreSdTextCandidate s).den := by
  simp only [scoreSdTextCandidate, fadd, fdivNat, fInt, Nat.one_mul]
  exact Nat.lt_of_lt_of_le Nat.one_pos (Nat.le_max_left _ _)

/-- The decoded-string score has a positive denominator. -/
theorem scoreDecoded_den_pos (s : Str) : 0 < (scoreDecodedString s).den := by
  simp only [scoreDecodedString, fadd, fmul, fInt]
  split
  · decide
  · show 0 < 1 * (1 * 10) * (1 * 2)
    decide

/-- The combined candidate score has a positive denominator. -/
theorem ucScore_den_pos (s : Str) : 0 < (ucScore s).den := by
  simp only [ucScore, fadd, fmul]
  exact Nat.mul_pos (scoreSd_den_pos s)
    (Nat.mul_pos (by decide) (scoreDecoded_den_pos s))

/-- One `ucStep`: denominator stays positive, the score never drops, the
accumulator is kept or replaced by the stripped candidate with its score, and
a nonempty stripped candidate never scores above the result. -/
theorem ucStep_spec (acc : Option Str × Frac) (b : Str) (hacc : 0 < acc.2.den) :
    0 < (ucStep acc b).2.den ∧ fle acc.2 (ucStep acc b).2 ∧
    (ucStep acc b = acc ∨
      ((ucStep acc b).1 = some (stripNuls b) ∧
        (ucStep acc b).2 = ucScore (stripNuls b) ∧ stripNuls b ≠ [])) ∧
    (stripNuls b ≠ [] → fle (ucScore (stripNuls b)) (ucStep acc b).2) := by
  simp only [ucStep]
  by_cases hs : stripNuls b = []
  · rw [if_pos hs]
    exact ⟨hacc, fle_refl _, Or.inl rfl, fun hne => absurd hs hne⟩
  · rw [if_neg hs]
    by_cases hf : flt acc.2 (ucScore (stripNuls b))
    · rw [if_pos hf]
      exact ⟨ucScore_den_pos _, fle_of_flt hf, Or.inr ⟨rfl, rfl, hs⟩,
        fun _ => fle_refl _⟩
    · rw [if_neg hf]
      exact ⟨hacc, fle_refl _, Or.inl rfl, fun _ => fle_of_not_flt hf⟩

/-- The best-candidate fold: the result's denominator is positive, the score
never drops below the initial accumulator, the result is the accumulator or a
stripped candidate paired with its own score, and no nonempty stripped
candidate scores above the result. -/
theorem ucFold_spec :
    ∀ (l : List Str) (acc : Option Str × Frac), 0 < acc.2.den →
      0 < (l.foldl ucStep acc).2.den ∧
      fle acc.2 (l.foldl ucStep acc).2 ∧
      (l.foldl ucStep acc = acc ∨
        ∃ c ∈ l, (l.foldl ucStep acc).1 = some (stripNuls c) ∧
          (l.foldl ucStep acc).2 = ucScore (stripNuls c) ∧ stripNuls c ≠ []) ∧
      (∀ c ∈ l, stripNuls c ≠ [] → fle (ucScore (stripNuls c)) (l.foldl ucStep acc).2) := by
  intro l
  induction l with
  | nil =>
    intro acc hacc
    exact ⟨hacc, fle_refl _, Or.inl rfl, fun c hc => absurd hc (List.not_mem_nil c)⟩
  | cons b bs ih =>
    intro acc hacc
    obtain ⟨hd1, hd2, hd3, hd4⟩ := ucStep_spec acc b hacc
    obtain ⟨hi1, hi2, hi3, hi4⟩ := ih (ucStep acc b) hd1
    rw [List.foldl_cons]
    refine ⟨hi1, fle_trans hd1 hd2 hi2, ?_, ?_⟩
    · rcases hi3 with hi3 | ⟨c, hc, hcs⟩
      · rw [hi3]
        rcases hd3 with hd3 | hd3
        · exact Or.inl hd3
        · exact Or.inr ⟨b, List.mem_cons_self _ _, hd3⟩
      · exact Or.inr ⟨c, List.mem_cons_of_mem _ hc, hcs⟩
    · intro c hc hne
      rcases List.mem_cons.mp hc with hc | hc
      · subst hc
        exact fle_trans hd1 (hd4 hne) hi2
      · exact hi4 c hc hne

/-- C7 (amended): the decoder does *not* always try every remaining encoding
(Shift_JIS is skipped for `UNICODE` payloads and UTF-16BE is only tried when
marker-driven or parity-favoured); over the candidate panel it actually
builds (`ucCandidates`), the returned string is NUL-free and is either a
stripped candidate whose score is maximal among all nonempty stripped
candidates, or — when every candidate strips to empty or scores at most the
initial `-1` — the NUL-stripped Latin-1 decoding of the payload. -/
theorem claim_C7 (sjisDec : List Nat → Str) (raw : List Nat) (s : Str)
    (h : decodeExifUserComment sjisDec raw = some s) :
    (∀ ch ∈ s, ch ≠ 0) ∧
    ((∃ c ∈ ucCandidates sjisDec raw, s = stripNuls c ∧
        ∀ c' ∈ ucCandidates sjisDec raw, stripNuls c' ≠ [] →
          fle (ucScore (stripNuls c')) (ucScore s)) ∨
      ((∀ c ∈ ucCandidates sjisDec raw, stripNuls c = [] ∨
          fle (ucScore (stripNuls c)) (fInt (-1))) ∧
        s = stripNuls (latin1FromU8 (ucData raw)))) := by
  have hnul : ∀ (t : Str) (ch : Nat), ch ∈ stripNuls t → ch ≠ 0 := by
    intro t ch hm
    have := (List.mem_filter.mp hm).2
    exact of_decide_eq_true this
  obtain ⟨hf1, hf2, hf3, hf4⟩ :=
    ucFold_spec (ucCandidates sjisDec raw) (none, fInt (-1)) (by decide)
  simp only [decodeExifUserComment] at h
  cases hz : ((ucCandidates sjisDec raw).foldl ucStep (none, fInt (-1))).1 with
  | some b =>
    simp only [hz] at h
    have hbs : b = s := Option.some.inj h
    subst hbs
    rcases hf3 with hf3 | ⟨c, hc, hcs1, hcs2, _⟩
    · rw [hf3] at hz
      exact absurd hz (by simp)
    · rw [hz] at hcs1
      have hbc : b = stripNuls c := Option.some.inj hcs1
      refine ⟨fun ch hm => hnul c ch (hbc ▸ hm), Or.inl ⟨c, hc, hbc, ?_⟩⟩
      intro c' hc' hne
      rw [← hbc] at hcs2
      rw [← hcs2]
      exact hf4 c' hc' hne
  | none =>
    simp only [hz] at h
    by_cases hl : latin1FromU8 (ucData raw) = []
    · rw [if_neg (fun hne => hne hl)] at h
      exact absurd h (by simp)
    · rw [if_pos hl] at h
      have hs : stripNuls (latin1FromU8 (ucData raw)) = s := Option.some.inj h
      have hacc : (ucCandidates sjisDec raw).foldl ucStep (none, fInt (-1)) =
          (none, fInt (-1)) := by
        rcases hf3 with hf3 | ⟨c, _, hcs1, _⟩
        · exact hf3
        · rw [hz] at hcs1
          exact absurd hcs1 (by simp)
      refine ⟨fun ch hm => hnul _ ch (hs ▸ hm), Or.inr ⟨?_, hs.symm⟩⟩
      intro c hc
      by_cases hne : stripNuls c = []
      · exact Or.inl hne
      · right
        have := hf4 c hc hne
        rw [hacc] at this
        exact this

/-- Witness for C7 at the two-byte payload `"hi"`: the decoder returns the
NUL-free UTF-16LE reading `[0x6968]`. -/
theorem claim_C7_witness :
    (∀ ch ∈ [0x6968], ch ≠ 0) ∧
    ((∃ c ∈ ucCandidates sjisModel [104, 105], [0x6968] = stripNuls c ∧
        ∀ c' ∈ ucCandidates sjisModel [104, 105], stripNuls c' ≠ [] →
          fle (ucScore (stripNuls c')) (ucScore [0x6968])) ∨
      ((∀ c ∈ ucCandidates sjisModel [104, 105], stripNuls c = [] ∨
          fle (ucScore (stripNuls c)) (fInt (-1))) ∧
        ([0x6968] : Str) = stripNuls (latin1FromU8 (ucData [104, 105])))) :=
  claim_C7 sjisModel [104, 105] [0x6968] (by decide)

-- ---------------------------------------------------------------------------
-- Prefix-stability of the scanners (C4).
-- ---------------------------------------------------------------------------

/-- The endianness repair is the identity when its trigger is off. -/
theorem maybeFix_id (u : Str) (h : fixTrigger u = false) :
    maybeFixUtf16EndianMisdecode u = u := by
  simp [maybeFixUtf16EndianMisdecode, h]

/-- A nonempty pattern never ci-matches at the start of the empty string. -/
theorem ciStarts_nil (lab : Str) (h : lab ≠ []) : ciStarts [] lab = false := by
  cases lab with
  | nil => exact absurd rfl h
  | cons c r => rfl

/-- A ci-match at the start of a prefix is a ci-match on the whole string. -/
theorem ciStarts_mono (t' t lab : Str) (hpre : t' <+: t)
    (h : ciStarts t' lab = true) : ciStarts t lab = true := by
  unfold ciStarts strStarts at h ⊢
  rw [List.isPrefixOf_iff_prefix] at h ⊢
  exact h.trans (hpre.map foldAsciiLower)

/-- A ci-match survives truncation that keeps the whole pattern. -/
theorem ciStarts_take (t lab : Str) (m : Nat) (h : ciStarts t lab = true)
    (hm : lab.length ≤ m) : ciStarts (t.take m) lab = true := by
  unfold ciStarts strStarts toLowerJS at h ⊢
  rw [List.isPrefixOf_iff_prefix] at h ⊢
  rw [List.map_take]
  rw [List.prefix_take_iff]
  exact ⟨h, by simpa using hm⟩

/-- Case folding fixes the `[\t ]` characters. -/
theorem foldAscii_ws (c : Nat) (h : wsTabChar c = true) : foldAsciiLower c = c := by
  simp only [wsTabChar, decide_eq_true_eq] at h
  rcases h with h | h <;> subst h <;> rfl

/-- A ci-matched string starts with a non-`[\t ]` character when the pattern
does (after folding). -/
theorem ciStarts_head (t lab : Str) (h : ciStarts t lab = true) (hne : lab ≠ [])
    (hws : wsTabChar (foldAsciiLower (lab.headD 0)) = false) :
    ∃ c r, t = c :: r ∧ wsTabChar c = false := by
  cases lab with
  | nil => exact absurd rfl hne
  | cons l0 lr =>
    cases t with
    | nil => rw [ciStarts_nil _ hne] at h; cases h
    | cons c r =>
      refine ⟨c, r, rfl, ?_⟩
      unfold ciStarts strStarts toLowerJS at h
      rw [List.isPrefixOf_iff_prefix] at h
      simp only [List.map_cons] at h
      obtain ⟨hhead, -⟩ := (List.cons_prefix_cons).mp h
      have hws2 : wsTabChar (foldAsciiLower l0) = false := hws
      by_cases hcw : wsTabChar c = true
      · rw [foldAscii_ws c hcw] at hhead
        rw [hhead] at hws2
        exact hws2
      · cases hb : wsTabChar c
        · rfl
        · exact absurd hb hcw

/-- Truncation past the whitespace run does not change it. -/
theorem takeWhile_take_of_lt (q : Nat → Bool) :
    ∀ (t : Str) (l : Nat), (t.takeWhile q).length < l →
      (t.take l).takeWhile q = t.takeWhile q := by
  intro t
  induction t with
  | nil => intro l _; simp
  | cons c r ih =>
    intro l hl
    by_cases hq : q c = true
    · rw [List.takeWhile_cons, if_pos hq] at hl ⊢
      cases l with
      | zero => simp at hl
      | succ l' =>
        rw [List.take_succ_cons, List.takeWhile_cons, if_pos hq]
        rw [List.length_cons] at hl
        rw [ih l' (Nat.lt_of_succ_lt_succ hl)]
    · rw [List.takeWhile_cons, if_neg hq] at hl ⊢
      cases l with
      | zero => simp at hl
      | succ l' =>
        rw [List.take_succ_cons, List.takeWhile_cons, if_neg hq]

/-- Cutting a string at its leading non-newline run preserves that run. -/
theorem nonNlLen_take_self : ∀ (u : Str), nonNlLen (u.take (nonNlLen u)) = nonNlLen u := by
  intro u
  induction u with
  | nil => rfl
  | cons c v ih =>
    by_cases hc : (c ≠ 10 : Bool) = true
    · simp only [nonNlLen, List.takeWhile_cons, if_pos hc, List.length_cons]
      rw [List.take_succ_cons]
      simp only [nonNlLen] at ih
      simp only [List.takeWhile_cons, if_pos hc, List.length_cons]
      rw [ih]
    · simp only [nonNlLen, List.takeWhile_cons, if_neg hc, List.length_nil, List.take_zero]
      rfl

/-- `find?` is stable under a predicate change that cannot add hits before the
found element. -/
theorem find_congr_until {α : Type} (p q : α → Bool) :
    ∀ (L : List α) (x : α), L.find? q = some x →
      (∀ y ∈ L, q y = false → p y = false) → p x = true → L.find? p = some x := by
  intro L
  induction L with
  | nil => intro x hx; cases hx
  | cons y ys ih =>
    intro x hx hno hp
    cases hqy : q y with
    | true =>
      rw [List.find?_cons_of_pos _ hqy] at hx
      have hxy : y = x := Option.some.inj hx
      subst hxy
      rw [List.find?_cons_of_pos _ hp]
    | false =>
      rw [List.find?_cons_of_neg _ (fun habs => Bool.false_ne_true (hqy ▸ habs))] at hx
      have hpy : p y = false := hno y (List.mem_cons_self _ _) hqy
      rw [List.find?_cons_of_neg _ (fun habs => Bool.false_ne_true (hpy ▸ habs))]
      exact ih x hx (fun z hz => hno z (List.mem_cons_of_mem _ hz)) hp

/-- `getD` agrees between a list and its prefix inside the prefix. -/
theorem getD_within_pre (B s : Str) (i : Nat) (hpre : B <+: s) (hi : i < B.length) :
    s.getD i 0 = B.getD i 0 := by
  obtain ⟨u, hu⟩ := hpre
  subst hu
  rw [List.getD_append _ _ _ _ hi]

/-- The unit exposed by a `drop` that starts with a known head. -/
theorem getD_of_drop_cons : ∀ (v : Str) (j : Nat) (c : Nat) (u : Str),
    v.drop j = c :: u → v.getD j 0 = c := by
  intro v
  induction v with
  | nil => intro j c u h; rw [List.drop_nil] at h; cases h
  | cons d r ih =>
    intro j c u h
    cases j with
    | zero =>
      rw [List.drop_zero] at h
      injection h with h1 h2
    | succ j' =>
      rw [List.drop_succ_cons] at h
      exact ih j' c u h

/-- `indexOf` finds an actual occurrence. -/
theorem idxOf_spec : ∀ (s pat : Str) (i : Nat),
    idxOf? s pat = some i → pat <+: s.drop i := by
  intro s
  induction s with
  | nil =>
    intro pat i h
    unfold idxOf? at h
    by_cases hp : pat.isPrefixOf ([] : Str) = true
    · rw [if_pos hp] at h
      have hi : i = 0 := (Option.some.inj h).symm
      subst hi
      exact List.isPrefixOf_iff_prefix.mp hp
    · rw [if_neg hp] at h
      cases h
  | cons c rest ih =>
    intro pat i h
    unfold idxOf? at h
    by_cases hp : pat.isPrefixOf (c :: rest) = true
    · rw [if_pos hp] at h
      have hi : i = 0 := (Option.some.inj h).symm
      subst hi
      exact List.isPrefixOf_iff_prefix.mp hp
    · rw [if_neg hp] at h
      rcases Option.map_eq_some'.mp h with ⟨j, hj, hij⟩
      subst hij
      rw [List.drop_succ_cons]
      exact ih pat j hj

/-- The first occurrence inside a prefix that fully contains it is also the
first occurrence in the prefix. -/
theorem idxOf_within_pre : ∀ (B s pat : Str) (i : Nat), B <+: s →
    idxOf? s pat = some i → i + pat.length ≤ B.length → idxOf? B pat = some i := by
  intro B
  induction B with
  | nil =>
    intro s pat i _ hs hfit
    simp only [List.length_nil, Nat.le_zero, Nat.add_eq_zero] at hfit
    obtain ⟨hi, hpl⟩ := hfit
    subst hi
    have hpat : pat = [] := List.length_eq_zero.mp hpl
    subst hpat
    rfl
  | cons c B' ih =>
    intro s pat i hpre hs hfit
    cases s with
    | nil => exact absurd (List.prefix_nil.mp hpre) (by simp)
    | cons d rest =>
      obtain ⟨hcd, hpre'⟩ := List.cons_prefix_cons.mp hpre
      subst hcd
      unfold idxOf? at hs ⊢
      by_cases hp : pat.isPrefixOf (c :: rest) = true
      · rw [if_pos hp] at hs
        have hi : i = 0 := (Option.some.inj hs).symm
        subst hi
        rw [if_pos]
        exact List.isPrefixOf_iff_prefix.mpr
          (List.prefix_of_prefix_length_le (List.isPrefixOf_iff_prefix.mp hp) hpre
            (by simpa using hfit))
      · rw [if_neg hp] at hs
        rcases Option.map_eq_some'.mp hs with ⟨j, hj, hij⟩
        subst hij
        have hpB : ¬ pat.isPrefixOf (c :: B') = true := by
          intro habs
          exact hp (List.isPrefixOf_iff_prefix.mpr
            ((List.isPrefixOf_iff_prefix.mp habs).trans hpre))
        rw [if_neg hpB]
        show Option.map (· + 1) (idxOf? B' pat) = some (j + 1)
        rw [ih rest pat j hpre' hj (by simp at hfit ⊢; omega)]
        rfl

/-- A prefix with no settings-line match comes from a string with none. -/
theorem matchLenHere_none_mono (labels : List Str) (t' t : Str)
    (hlab : ∀ lab ∈ labels, lab ≠ [])
    (hpre : t' <+: t) (h : matchLenHere labels t = none) :
    matchLenHere labels t' = none := by
  simp only [matchLenHere] at h ⊢
  have hfind : labels.find?
      (fun lab => ciStarts (t.drop (t.takeWhile wsTabChar).length) lab) = none := by
    cases hf : labels.find?
        (fun lab => ciStarts (t.drop (t.takeWhile wsTabChar).length) lab) with
    | some lab => simp [hf] at h
    | none => rfl
  rw [List.find?_eq_none] at hfind
  have hgoal : labels.find?
      (fun lab => ciStarts (t'.drop (t'.takeWhile wsTabChar).length) lab) = none := by
    rw [List.find?_eq_none]
    intro lab hl habs
    by_cases hlen : t'.length ≤ (t.takeWhile wsTabChar).length
    · have hallpre : t' <+: t.takeWhile wsTabChar :=
        List.prefix_of_prefix_length_le hpre (List.takeWhile_prefix _) (by simpa using hlen)
      have hall : ∀ x ∈ t', wsTabChar x = true :=
        fun x hx => List.mem_takeWhile_imp (hallpre.subset hx)
      have ht2 : t'.takeWhile wsTabChar = t' := List.takeWhile_eq_self_iff.mpr hall
      rw [ht2, List.drop_length] at habs
      rw [ciStarts_nil lab (hlab lab hl)] at habs
      cases habs
    · push_neg at hlen
      have ht' : t' = t.take t'.length := List.prefix_iff_eq_take.mp hpre
      have htw : t'.takeWhile wsTabChar = t.takeWhile wsTabChar := by
        conv_lhs => rw [ht']
        exact takeWhile_take_of_lt wsTabChar t t'.length hlen
      rw [htw] at habs
      have hdrop : t'.drop (t.takeWhile wsTabChar).length <+:
          t.drop (t.takeWhile wsTabChar).length := by
        obtain ⟨u, hu⟩ := hpre
        subst hu
        rw [List.drop_append_of_le_length (le_of_lt hlen)]
        exact ⟨u, rfl⟩
      exact hfind lab hl (by simpa using ciStarts_mono _ _ _ hdrop habs)
  rw [hgoal]

/-- A settings-line match survives cutting the string exactly at its end. -/
theorem matchLenHere_take (labels : List Str) (t : Str) (l : Nat)
    (hlab : ∀ lab ∈ labels, lab ≠ [] ∧ wsTabChar (foldAsciiLower (lab.headD 0)) = false)
    (h : matchLenHere labels t = some l) :
    matchLenHere labels (t.take l) = some l := by
  simp only [matchLenHere] at h ⊢
  set w := (t.takeWhile wsTabChar).length with hw
  cases hf : labels.find? (fun lab => ciStarts (t.drop w) lab) with
  | none => simp [hf] at h
  | some lab =>
    simp only [hf] at h
    have hl : l = w + lab.length + nonNlLen ((t.drop w).drop lab.length) :=
      (Option.some.inj h).symm
    obtain ⟨hlabne, hlabws⟩ := hlab lab (List.mem_of_find?_eq_some hf)
    have hci : ciStarts (t.drop w) lab = true := by
      have := List.find?_some hf
      simpa using this
    have hL1 : 1 ≤ lab.length := by
      cases lab with
      | nil => exact absurd rfl hlabne
      | cons a b => simp
    have hwl : w < l := by omega
    have htw : (t.take l).takeWhile wsTabChar = t.takeWhile wsTabChar :=
      takeWhile_take_of_lt wsTabChar t l (by rw [← hw]; exact hwl)
    simp only [htw, ← hw]
    have hdt : (t.take l).drop w = (t.drop w).take (l - w) := List.drop_take l w t
    simp only [hdt]
    have hfind2 : labels.find? (fun lab2 => ciStarts ((t.drop w).take (l - w)) lab2) =
        some lab := by
      apply find_congr_until _ _ labels lab hf
      · intro y hy hqy
        cases hcy : ciStarts ((t.drop w).take (l - w)) y with
        | false => rfl
        | true =>
          have hmono := ciStarts_mono _ _ y (List.take_prefix _ _) hcy
          rw [hmono] at hqy
          cases hqy
      · exact ciStarts_take _ _ _ hci (by omega)
    simp only [hfind2]
    have hdt2 : ((t.drop w).take (l - w)).drop lab.length =
        ((t.drop w).drop lab.length).take (l - w - lab.length) :=
      List.drop_take (l - w) lab.length (t.drop w)
    rw [hdt2]
    have hnn : l - w - lab.length = nonNlLen ((t.drop w).drop lab.length) := by omega
    rw [hnn, nonNlLen_take_self]
    rw [hl]

/-- A settings-line match has positive length. -/
theorem matchLenHere_pos (labels : List Str) (t : Str) (l : Nat)
    (hlab : ∀ lab ∈ labels, lab ≠ []) (h : matchLenHere labels t = some l) :
    1 ≤ l := by
  simp only [matchLenHere] at h
  cases hf : labels.find?
      (fun lab => ciStarts (t.drop (t.takeWhile wsTabChar).length) lab) with
  | none => simp [hf] at h
  | some lab =>
    simp only [hf] at h
    have hl := (Option.some.inj h).symm
    have hL1 : 1 ≤ lab.length := by
      cases hc : lab with
      | nil => exact absurd hc (hlab lab (List.mem_of_find?_eq_some hf))
      | cons a b => simp
    omega

/-- A scan with no match stays matchless on any truncation. -/
theorem scanLS_none_take (labels : List Str) (hlab : ∀ lab ∈ labels, lab ≠ []) :
    ∀ (t : Str) (b : Bool) (m : Nat), scanLS labels t b = none →
      scanLS labels (t.take m) b = none := by
  intro t
  induction t with
  | nil => intro b m h; rw [List.take_nil]; exact h
  | cons c rest ih =>
    intro b m h
    have hmatch : (if b then matchLenHere labels (c :: rest) else none) = none := by
      cases hmi : (if b then matchLenHere labels (c :: rest) else none) with
      | some l => simp [scanLS, hmi] at h
      | none => rfl
    have hrest : scanLS labels rest (lineTermChar c) = none := by
      unfold scanLS at h
      rw [hmatch] at h
      exact Option.map_eq_none'.mp h
    cases m with
    | zero => rfl
    | succ m' =>
      rw [List.take_succ_cons]
      unfold scanLS
      have hm2 : (if b then matchLenHere labels (c :: rest.take m') else none) = none := by
        cases b with
        | false => rfl
        | true =>
          have hM : matchLenHere labels (c :: rest) = none := by simpa using hmatch
          exact matchLenHere_none_mono labels _ _ hlab
            (List.cons_prefix_cons.mpr ⟨rfl, List.take_prefix _ _⟩) hM
      rw [hm2]
      show Option.map (fun p => (p.1 + 1, p.2))
        (scanLS labels (rest.take m') (lineTermChar c)) = none
      rw [ih (lineTermChar c) m' hrest]
      rfl

/-- A leftmost scan match survives cutting the string exactly at its end. -/
theorem scanLS_take (labels : List Str)
    (hlab : ∀ lab ∈ labels, lab ≠ [] ∧ wsTabChar (foldAsciiLower (lab.headD 0)) = false) :
    ∀ (t : Str) (b : Bool) (p l : Nat), scanLS labels t b = some (p, l) →
      scanLS labels (t.take (p + l)) b = some (p, l) := by
  intro t
  induction t with
  | nil => intro b p l h; simp [scanLS] at h
  | cons c rest ih =>
    intro b p l h
    cases hmi : (if b then matchLenHere labels (c :: rest) else none) with
    | some l0 =>
      unfold scanLS at h
      rw [hmi] at h
      have hpl : (0, l0) = (p, l) := Option.some.inj h
      injection hpl with h1 h2
      subst h1
      subst h2
      cases b with
      | false => simp at hmi
      | true =>
        have hM : matchLenHere labels (c :: rest) = some l0 := by simpa using hmi
        have hpos : 1 ≤ l0 := matchLenHere_pos labels _ l0 (fun lab hl => (hlab lab hl).1) hM
        obtain ⟨l0', rfl⟩ : ∃ k, l0 = k + 1 := ⟨l0 - 1, by omega⟩
        rw [Nat.zero_add, List.take_succ_cons]
        unfold scanLS
        have hM2 : matchLenHere labels (c :: rest.take l0') = some (l0' + 1) := by
          have hcut := matchLenHere_take labels (c :: rest) (l0' + 1) hlab hM
          rw [List.take_succ_cons] at hcut
          exact hcut
        rw [if_pos rfl, hM2]
    | none =>
      unfold scanLS at h
      rw [hmi] at h
      rcases Option.map_eq_some'.mp h with ⟨⟨p', l'⟩, hp', hpl⟩
      injection hpl with h1 h2
      subst h1
      subst h2
      rw [show p' + 1 + l' = (p' + l') + 1 by omega, List.take_succ_cons]
      unfold scanLS
      have hm2 : (if b then matchLenHere labels (c :: rest.take (p' + l')) else none) = none := by
        cases b with
        | false => rfl
        | true =>
          have hM : matchLenHere labels (c :: rest) = none := by simpa using hmi
          exact matchLenHere_none_mono labels _ _ (fun lab hl => (hlab lab hl).1)
            (List.cons_prefix_cons.mpr ⟨rfl, List.take_prefix _ _⟩) hM
      rw [hm2]
      show Option.map (fun q => (q.1 + 1, q.2))
        (scanLS labels (rest.take (p' + l')) (lineTermChar c)) = some (p' + 1, l')
      rw [ih (lineTermChar c) p' l' hp']
      rfl

/-- A settings-line pick survives cutting the string exactly at the match end. -/
theorem pickSettings_take (t : Str) (p e : Nat)
    (h : pickSettingsLineWithIndex t = some (p, e)) :
    pickSettingsLineWithIndex (t.take e) = some (p, e) := by
  have hsteps : ∀ lab ∈ stepsLabels,
      lab ≠ [] ∧ wsTabChar (foldAsciiLower (lab.headD 0)) = false := by decide
  have hany : ∀ lab ∈ anyLabels,
      lab ≠ [] ∧ wsTabChar (foldAsciiLower (lab.headD 0)) = false := by decide
  unfold pickSettingsLineWithIndex at h ⊢
  cases hst : scanLS stepsLabels t true with
  | some pl =>
    obtain ⟨p0, l0⟩ := pl
    simp only [hst] at h
    have hpe : (p0, p0 + l0) = (p, e) := Option.some.inj h
    injection hpe with h1 h2
    subst h1
    subst h2
    rw [scanLS_take stepsLabels hsteps t true p0 l0 hst]
  | none =>
    cases han : scanLS anyLabels t true with
    | some pl =>
      obtain ⟨p0, l0⟩ := pl
      simp only [hst, han] at h
      have hpe : (p0, p0 + l0) = (p, e) := Option.some.inj h
      injection hpe with h1 h2
      subst h1
      subst h2
      rw [scanLS_none_take stepsLabels (fun lab hl => (hsteps lab hl).1) t true (p0 + l0) hst]
      rw [scanLS_take anyLabels hany t true p0 l0 han]
    | none => simp [hst, han] at h

/-- C4 (amended): the locator is *not* idempotent in general — the
endianness repair can garble its own output — but it is idempotent whenever
the repair trigger is off on the returned block: if the locator returns `B`
and `fixTrigger B` is false, running it on `B` returns `B` unchanged. -/
theorem claim_C4 (src B : Str)
    (h1 : extractA1111BlockFromText src = some B)
    (h2 : fixTrigger B = false) :
    extractA1111BlockFromText B = some B := by
  simp only [extractA1111BlockFromText] at h1
  by_cases hsrc : src = []
  · rw [if_pos hsrc] at h1
    exact Option.noConfusion h1
  rw [if_neg hsrc] at h1
  set s := maybeFixUtf16EndianMisdecode src with hsdef
  cases hneg : idxOf? s negLabelCS with
  | none =>
    simp only [hneg] at h1
    exact Option.noConfusion h1
  | some negIdx =>
    simp only [hneg] at h1
    have hmark : negLabelCS <+: s.drop negIdx := idxOf_spec s negLabelCS negIdx hneg
    have hmarklen : negIdx + 16 ≤ s.length := by
      have hle := hmark.length_le
      have hlen16 : negLabelCS.length = 16 := by decide
      rw [hlen16, List.length_drop] at hle
      omega
    have hsne : s ≠ [] := by
      intro habs
      rw [habs] at hmarklen
      simp at hmarklen
    cases hnl : idxFrom s [10] negIdx with
    | none =>
      simp only [hnl] at h1
      rw [List.drop_length] at h1
      have hpick0 : pickSettingsLineWithIndex ([] : Str) = none := rfl
      simp only [hpick0] at h1
      have hBs : s = B := Option.some.inj h1
      subst hBs
      simp only [extractA1111BlockFromText]
      rw [if_neg hsne]
      have hmf : maybeFixUtf16EndianMisdecode s = s := maybeFix_id s h2
      simp only [hmf, hneg, hnl, List.drop_length, hpick0]
    | some n =>
      simp only [hnl] at h1
      have hnl2 := hnl
      unfold idxFrom at hnl2
      rcases Option.map_eq_some'.mp hnl2 with ⟨j, hj, hnj⟩
      have hj16 : 16 ≤ j := by
        by_contra hlt
        push_neg at hlt
        obtain ⟨u, hu⟩ := idxOf_spec _ _ _ hj
        have hg : (s.drop negIdx).getD j 0 = 10 := getD_of_drop_cons _ j 10 u hu.symm
        have hgm : (s.drop negIdx).getD j 0 = negLabelCS.getD j 0 :=
          getD_within_pre negLabelCS (s.drop negIdx) j hmark
            (by rw [(by decide : negLabelCS.length = 16)]; omega)
        have hne10 : ∀ k, k < 16 → negLabelCS.getD k 0 ≠ 10 := by decide
        exact hne10 j hlt (by rw [← hgm]; exact hg)
      have hn16 : negIdx + 16 ≤ n := by omega
      have hn0 : 0 < n := by omega
      simp only [if_pos hn0] at h1
      have hjlen : negIdx + j + 1 ≤ s.length := by
        obtain ⟨u, hu⟩ := idxOf_spec _ _ _ hj
        have hle := congrArg List.length hu
        simp only [List.length_append, List.length_cons, List.length_nil,
          List.length_drop] at hle
        omega
      have hn1len : n + 1 ≤ s.length := by omega
      cases hpick : pickSettingsLineWithIndex (s.drop (n + 1)) with
      | none =>
        simp only [hpick] at h1
        have hBs : s = B := Option.some.inj h1
        subst hBs
        simp only [extractA1111BlockFromText]
        rw [if_neg hsne]
        have hmf : maybeFixUtf16EndianMisdecode s = s := maybeFix_id s h2
        simp only [hmf, hneg, hnl, if_pos hn0, hpick]
      | some pe =>
        obtain ⟨p0, e0⟩ := pe
        simp only [hpick] at h1
        have hBdef : B = s.take (n + 1 + e0) := (Option.some.inj h1).symm
        have hBlen : B.length = min (n + 1 + e0) s.length := by
          rw [hBdef, List.length_take]
        have hBpre : B <+: s := hBdef ▸ List.take_prefix _ _
        have hBlen16 : negIdx + 16 ≤ B.length := by
          rw [hBlen]
          omega
        have hBne : B ≠ [] := by
          intro habs
          rw [habs] at hBlen16
          simp at hBlen16
        have hnegB : idxOf? B negLabelCS = some negIdx :=
          idxOf_within_pre B s negLabelCS negIdx hBpre hneg
            (by rw [(by decide : negLabelCS.length = 16)]; omega)
        have hnegIdxB : negIdx ≤ B.length := by omega
        have hdropB : B.drop negIdx <+: s.drop negIdx := by
          obtain ⟨u, hu⟩ := hBpre
          rw [← hu, List.drop_append_of_le_length hnegIdxB]
          exact ⟨u, rfl⟩
        have hnlB : idxFrom B [10] negIdx = some n := by
          unfold idxFrom
          rw [idxOf_within_pre (B.drop negIdx) (s.drop negIdx) [10] j hdropB hj
            (by rw [List.length_drop, (by decide : List.length [10] = 1)]
                rw [hBlen]
                omega)]
          simp only [Option.map_some']
          rw [hnj]
        have hdropTake : B.drop (n + 1) = (s.drop (n + 1)).take e0 := by
          rw [hBdef]
          have hq := List.drop_take (n + 1 + e0) (n + 1) s
          rw [show n + 1 + e0 - (n + 1) = e0 by omega] at hq
          exact hq
        have hpickB : pickSettingsLineWithIndex (B.drop (n + 1)) = some (p0, e0) := by
          rw [hdropTake]
          exact pickSettings_take (s.drop (n + 1)) p0 e0 hpick
        simp only [extractA1111BlockFromText]
        rw [if_neg hBne]
        have hmf : maybeFixUtf16EndianMisdecode B = B := maybeFix_id B h2
        simp only [hmf, hnegB, hnlB, if_pos hn0, hpickB]
        rw [List.take_of_length_le (by rw [hBlen]; omega)]

/-- Witness for C4: a block that the locator returns unchanged and on which
the repair trigger is off is a fixed point. -/
theorem claim_C4_witness :
    extractA1111BlockFromText (su "a\nNegative prompt: n\nSteps: 5") =
      some (su "a\nNegative prompt: n\nSteps: 5") :=
  claim_C4 (su "a\nNegative prompt: n\nSteps: 5") (su "a\nNegative prompt: n\nSteps: 5")
    (by decide) (by decide)
